import Mathlib

/-!
Revision-change mapping of the kustomize-controller.

A shallow embedding of `controllers/kustomization_indexers.go`: the two index
functions (`indexByGitRepository`, `indexByBucket`) and the two event handlers
(`requestsForGitRepositoryRevisionChange`, `requestsForBucketRevisionChange`).

* Go strings are `String`; a nil slice and an empty slice are both `[]`.
* `panic` is the `Except.error` result of a handler; a normal return is `Except.ok`.
  A nil pointer of the asserted type passes the type assertion and aborts on
  the first dereference.
* The cache query `r.List` is a field of the reconciler: the handlers are
  functions of whatever that query answers.
* The types and constants of the imported packages are modelled from the data
  model of the specification (section 3).
* `dependency.Sort` belongs to an imported package; it is modelled from the
  sequencer contract of the specification (section 4.3).
-/

set_option autoImplicit false

/-! ## Imported declarations -/

namespace types

/-- Modelled from the spec: the (namespace, name) pair that identifies an object
(`types.NamespacedName`, an imported type; section 3 and the glossary). -/
structure NamespacedName where
  Namespace : String
  Name : String
deriving DecidableEq, Repr

/-- Modelled from the spec: the printed form of a `NamespacedName` (its `String`
method), the index key `<namespace>/<name>` of section 3. -/
def NamespacedName.string (n : NamespacedName) : String :=
  n.Namespace ++ "/" ++ n.Name

end types

namespace reconcile

/-- Modelled from the spec: a reconcile request, the (namespace, name) pair of
the consumer to reconcile (`reconcile.Request`, an imported type; glossary). -/
structure Request where
  NamespacedName : types.NamespacedName
deriving DecidableEq, Repr

end reconcile

namespace dependency

/-- Modelled from the spec: the identity of a prerequisite consumer
(`dependency.CrossNamespaceDependencyReference`, an imported type; section 3). -/
structure CrossNamespaceDependencyReference where
  Namespace : String
  Name : String
deriving DecidableEq, Repr

/-- Modelled from the spec: what the `Dependent` capability exposes of an object
(`GetDependsOn`): its identity and the identities of its prerequisites
(section 3). -/
structure Dependent where
  name : types.NamespacedName
  dependsOn : List CrossNamespaceDependencyReference
deriving DecidableEq, Repr

/-- Modelled from the spec: the failure of the sequencer, `CycleError`
(section 4.3). -/
inductive CycleError where
  | cycle
deriving DecidableEq, Repr

/-- The identity of a dependent, in the shape of a reference. -/
def Dependent.ref (d : Dependent) : CrossNamespaceDependencyReference :=
  ⟨d.name.Namespace, d.name.Name⟩

/-- Modelled from the spec: the "no remaining ordering constraint" test of the
sequencer (section 4.3). `d` is ready among `rem` when none of its
prerequisites is the identity of a member of `rem`. -/
def ready (rem : List Dependent) (d : Dependent) : Bool :=
  rem.all fun e => !(d.dependsOn.contains e.ref)

/-- Modelled from the spec: the lexicographic comparison by namespace, then
name, of the tie-break of the sequencer (section 4.3). Strings are compared
character by character. -/
def refLE (a b : CrossNamespaceDependencyReference) : Bool :=
  decide (a.Namespace.toList < b.Namespace.toList) ||
    (a.Namespace == b.Namespace && !decide (b.Name.toList < a.Name.toList))

/-- Modelled from the spec: the least member of a list by `refLE`, the earlier
one of two members that compare equal. -/
def least : List Dependent → Option Dependent
  | [] => none
  | d :: ds =>
    match least ds with
    | none => some d
    | some m => if refLE d.ref m.ref then some d else some m

/-- Modelled from the spec: the next dependent to emit, the least ready one. -/
def next (rem : List Dependent) : Option Dependent :=
  least (rem.filter (ready rem))

/-- Modelled from the spec: the deterministic topological sort of the sequencer
(section 4.3). Each round emits the least ready dependent and removes it;
a round with dependents left and none ready is a cycle (`none`). The first
argument bounds the rounds; `sort` passes the length of the list, one round
per dependent. -/
def order : Nat → List Dependent → Option (List Dependent)
  | 0, _ => some []
  | n + 1, rem =>
    if rem.isEmpty then some []
    else
      match next rem with
      | none => none
      | some d => (order n (rem.erase d)).map (d :: ·)

/-- Modelled from the spec: `dependency.Sort` (written `sort`, `Sort` being
reserved), the dependency-graph utility
`sort(set of {identity, prerequisite-identities}) -> ordered sequence |
cycle-failure` (sections 4.3 and 6). The package is imported by the
controller and is not part of its sources. -/
def sort (d : List Dependent) : Except CycleError (List CrossNamespaceDependencyReference) :=
  match order d.length d with
  | some sorted => .ok (sorted.map Dependent.ref)
  | none => .error .cycle

end dependency

namespace sourcev1

/-- Modelled from the spec: the kind of a repository-backed source, a constant of
the imported source API; the two kinds are distinct (section 3). -/
def GitRepositoryKind : String := "GitRepository"

/-- Modelled from the spec: the kind of a bucket-backed source, a constant of the
imported source API; the two kinds are distinct (section 3). -/
def BucketKind : String := "Bucket"

/-- Modelled from the spec: the artifact state of a source, which carries a
`Revision` string (`sourcev1.Artifact`, an imported type; section 3). -/
structure Artifact where
  Revision : String
deriving DecidableEq, Repr

/-- Modelled from the spec: the status of a repository source; its artifact is
optional (section 3). -/
structure GitRepositoryStatus where
  Artifact : Option Artifact
deriving DecidableEq, Repr

/-- Modelled from the spec: a repository-backed source, with its identity and
its optional artifact state (`sourcev1.GitRepository`, an imported type;
section 3). -/
structure GitRepository where
  Namespace : String
  Name : String
  Status : GitRepositoryStatus
deriving DecidableEq, Repr

/-- The artifact of the repository, `none` for the nil pointer. -/
def GitRepository.GetArtifact (r : GitRepository) : Option Artifact :=
  r.Status.Artifact

/-- Modelled from the spec: the status of a bucket source; its artifact is
optional (section 3). -/
structure BucketStatus where
  Artifact : Option Artifact
deriving DecidableEq, Repr

/-- Modelled from the spec: a bucket-backed source, with its identity and its
optional artifact state (`sourcev1.Bucket`, an imported type; section 3). -/
structure Bucket where
  Namespace : String
  Name : String
  Status : BucketStatus
deriving DecidableEq, Repr

/-- The artifact of the bucket, `none` for the nil pointer. -/
def Bucket.GetArtifact (b : Bucket) : Option Artifact :=
  b.Status.Artifact

end sourcev1

namespace kustomizev1

/-- Modelled from the spec: the name of the repository index, a constant of the
API package; the handlers only pass it to the query. -/
def GitRepositoryIndexKey : String := ".metadata.gitRepository"

/-- Modelled from the spec: the name of the bucket index, a constant of the API
package; the handlers only pass it to the query. -/
def BucketIndexKey : String := ".metadata.bucket"

/-- Modelled from the spec: the `sourceRef` of a consumer, kind, optional
namespace and name (section 3); an empty `Namespace` is unset. -/
structure CrossNamespaceSourceReference where
  Kind : String
  Namespace : String
  Name : String
deriving DecidableEq, Repr

/-- Modelled from the spec: the declared part of a consumer, its prerequisites
and its `sourceRef` (section 3). -/
structure KustomizationSpec where
  DependsOn : List dependency.CrossNamespaceDependencyReference
  SourceRef : CrossNamespaceSourceReference
deriving DecidableEq, Repr

/-- Modelled from the spec: the recorded part of a consumer,
`lastAttemptedRevision` (section 3). -/
structure KustomizationStatus where
  LastAttemptedRevision : String
deriving DecidableEq, Repr

/-- Modelled from the spec: the consumer object (`kustomizev1.Kustomization`, a
type of the API package; section 3), with the fields these functions read. -/
structure Kustomization where
  Namespace : String
  Name : String
  Spec : KustomizationSpec
  Status : KustomizationStatus
deriving DecidableEq, Repr

/-- Modelled from the spec: the namespace of the consumer (`GetNamespace`). -/
def Kustomization.GetNamespace (k : Kustomization) : String := k.Namespace

/-- Modelled from the spec: the `Dependent` capability of a consumer, its
identity and its list of prerequisite identities, `Spec.DependsOn`
(section 3). -/
def Kustomization.GetDependsOn (k : Kustomization) : dependency.Dependent :=
  ⟨⟨k.Namespace, k.Name⟩, k.Spec.DependsOn⟩

/-- Modelled from the spec: the answer of a query, a sequence of consumers
(section 6). -/
structure KustomizationList where
  Items : List Kustomization
deriving DecidableEq, Repr

end kustomizev1

namespace controllers

open kustomizev1 sourcev1

/-- Modelled from the spec: the failure of a cache query (section 6), the Go
`error` value. -/
structure Error where
  msg : String
deriving DecidableEq, Repr

/-- The abort of a function by `panic`, with its message. -/
structure Panic where
  msg : String
deriving DecidableEq, Repr

/-- Modelled from the spec: the objects a handler or index function can be handed
(`client.Object`, an imported interface): a pointer to a source of either kind
or to a consumer, the nil pointer of each of these three types, or an object of
another type. -/
inductive Object where
  | gitRepository (o : GitRepository)
  | bucket (o : Bucket)
  | kustomization (o : Kustomization)
  | nilGitRepository
  | nilBucket
  | nilKustomization
  | other (typeName : String) (Namespace : String) (Name : String)
deriving DecidableEq, Repr

/-- The message of the run-time panic of Go on the dereference of a nil
pointer. -/
def nilDereference : Panic :=
  ⟨"runtime error: invalid memory address or nil pointer dereference"⟩

/-- The namespace of an object. The functions of this file read it only from a
pointer that is not nil; a nil pointer has none, and the empty string stands
for it. -/
def Object.GetNamespace : Object → String
  | .gitRepository o => o.Namespace
  | .bucket o => o.Namespace
  | .kustomization o => o.Namespace
  | .nilGitRepository => ""
  | .nilBucket => ""
  | .nilKustomization => ""
  | .other _ ns _ => ns

/-- The name of an object. The functions of this file read it only from a
pointer that is not nil; a nil pointer has none, and the empty string stands
for it. -/
def Object.GetName : Object → String
  | .gitRepository o => o.Name
  | .bucket o => o.Name
  | .kustomization o => o.Name
  | .nilGitRepository => ""
  | .nilBucket => ""
  | .nilKustomization => ""
  | .other _ _ n => n

/-- The dynamic type of an object as the `%T` verb prints it; a nil pointer has
the type of its pointer. -/
def Object.typeName : Object → String
  | .gitRepository _ => "*v1beta1.GitRepository"
  | .bucket _ => "*v1beta1.Bucket"
  | .kustomization _ => "*v1beta1.Kustomization"
  | .nilGitRepository => "*v1beta1.GitRepository"
  | .nilBucket => "*v1beta1.Bucket"
  | .nilKustomization => "*v1beta1.Kustomization"
  | .other t _ _ => t

/-- The type assertion `obj.(*sourcev1.GitRepository)` succeeds: the dynamic
type of the object is the pointer to a repository, nil or not. -/
def Object.isGitRepository : Object → Bool
  | .gitRepository _ => true
  | .nilGitRepository => true
  | _ => false

/-- The type assertion `obj.(*sourcev1.Bucket)` succeeds: the dynamic type of
the object is the pointer to a bucket, nil or not. -/
def Object.isBucket : Object → Bool
  | .bucket _ => true
  | .nilBucket => true
  | _ => false

/-- The type assertion `o.(*kustomizev1.Kustomization)` succeeds: the dynamic
type of the object is the pointer to a consumer, nil or not. -/
def Object.isKustomization : Object → Bool
  | .kustomization _ => true
  | .nilKustomization => true
  | _ => false

/-- Modelled from the spec: `ObjectKey`, a helper of the controllers package
outside this file; the identity (namespace, name) of an object, by which the
index is queried (section 4.2, step 2). -/
def ObjectKey (obj : Object) : types.NamespacedName :=
  ⟨obj.GetNamespace, obj.GetName⟩

/-- Modelled from the spec: the reconciler, as far as these functions use it:
the cache query `List(kind, filter: index-key-equals) -> sequence of consumer
objects, or failure` (section 6), here a function of the index name and the
key. -/
structure KustomizationReconciler where
  List : String → String → Except Error KustomizationList

/-- The handler of repository events of `kustomization_indexers.go`. -/
def requestsForGitRepositoryRevisionChange (r : KustomizationReconciler) (obj : Object) :
    Except Panic (List reconcile.Request) :=
  match obj with
  | .gitRepository repo =>
    -- If we do not have an artifact, we have no requests to make
    match repo.GetArtifact with
    | none => .ok []
    | some artifact =>
      match r.List GitRepositoryIndexKey (ObjectKey obj).string with
      | .error _ => .ok []
      | .ok list =>
        let dd := (list.Items.filter fun d =>
          !(artifact.Revision == d.Status.LastAttemptedRevision)).map Kustomization.GetDependsOn
        match dependency.sort dd with
        | .error _ => .ok []
        | .ok sorted => .ok (sorted.map fun s => ⟨⟨s.Namespace, s.Name⟩⟩)
  -- a nil pointer passes the assertion; `repo.GetArtifact()` dereferences it
  | .nilGitRepository => .error nilDereference
  | _ => .error ⟨"Expected a GitRepository but got a " ++ obj.typeName⟩

/-- The repository index function of `kustomization_indexers.go`. -/
def indexByGitRepository (_r : KustomizationReconciler) (o : Object) :
    Except Panic (List String) :=
  match o with
  | .kustomization k =>
    if k.Spec.SourceRef.Kind = GitRepositoryKind then
      let namespace0 := k.GetNamespace
      let namespace1 :=
        if k.Spec.SourceRef.Namespace ≠ "" then k.Spec.SourceRef.Namespace else namespace0
      .ok [namespace1 ++ "/" ++ k.Spec.SourceRef.Name]
    else .ok []
  -- a nil pointer passes the assertion; `k.Spec` dereferences it
  | .nilKustomization => .error nilDereference
  | _ => .error ⟨"Expected a Kustomization, got " ++ o.typeName⟩

/-- The handler of bucket events of `kustomization_indexers.go`. -/
def requestsForBucketRevisionChange (r : KustomizationReconciler) (obj : Object) :
    Except Panic (List reconcile.Request) :=
  match obj with
  | .bucket bucket =>
    -- If we do not have an artifact, we have no requests to make
    match bucket.GetArtifact with
    | none => .ok []
    | some artifact =>
      match r.List BucketIndexKey (ObjectKey obj).string with
      | .error _ => .ok []
      | .ok list =>
        let dd := (list.Items.filter fun d =>
          !(artifact.Revision == d.Status.LastAttemptedRevision)).map Kustomization.GetDependsOn
        match dependency.sort dd with
        | .error _ => .ok []
        | .ok sorted => .ok (sorted.map fun s => ⟨⟨s.Namespace, s.Name⟩⟩)
  -- a nil pointer passes the assertion; `bucket.GetArtifact()` dereferences it
  | .nilBucket => .error nilDereference
  | _ => .error ⟨"Expected a Bucket but got a " ++ obj.typeName⟩

/-- The bucket index function of `kustomization_indexers.go`. -/
def indexByBucket (_r : KustomizationReconciler) (o : Object) :
    Except Panic (List String) :=
  match o with
  | .kustomization k =>
    if k.Spec.SourceRef.Kind = BucketKind then
      let namespace0 := k.GetNamespace
      let namespace1 :=
        if k.Spec.SourceRef.Namespace ≠ "" then k.Spec.SourceRef.Namespace else namespace0
      .ok [namespace1 ++ "/" ++ k.Spec.SourceRef.Name]
    else .ok []
  -- a nil pointer passes the assertion; `k.Spec` dereferences it
  | .nilKustomization => .error nilDereference
  | _ => .error ⟨"Expected a Kustomization, got " ++ o.typeName⟩

end controllers

/-! ## Specification vocabulary -/

namespace dependency

/-- The dependency graph of a list of dependents, on identities: `a` depends on
`b` when a member with identity `a` declares `b` and `b` is the identity of a
member. -/
def Edge (ds : List Dependent) (a b : CrossNamespaceDependencyReference) : Prop :=
  ∃ d ∈ ds, d.ref = a ∧ b ∈ d.dependsOn ∧ ∃ e ∈ ds, e.ref = b

/-- A dependency cycle: an identity that reaches itself along at least one edge. -/
def HasCycle (ds : List Dependent) : Prop :=
  ∃ a, Relation.TransGen (Edge ds) a a

/-- A list in dependency order: no member declares its own identity or the
identity of a later member. -/
def Topo : List Dependent → Prop
  | [] => True
  | d :: ds => (∀ e ∈ d :: ds, e.ref ∉ d.dependsOn) ∧ Topo ds

end dependency

namespace controllers

open kustomizev1 sourcev1

/-- The request that names a consumer. -/
def requestFor (k : Kustomization) : reconcile.Request := ⟨⟨k.Namespace, k.Name⟩⟩

/-- The consumers of a listing have pairwise distinct (namespace, name). -/
def DistinctNames (items : List Kustomization) : Prop :=
  (items.map fun d => (d.Namespace, d.Name)).Nodup

/-- The dependency graph declared by a list of consumers has a cycle. -/
def HasDependencyCycle (items : List Kustomization) : Prop :=
  dependency.HasCycle (items.map Kustomization.GetDependsOn)

/-- The consumers of a listing that are not at revision `rev`: the loop of the
handlers over `list.Items`. -/
def pending (rev : String) (items : List Kustomization) : List Kustomization :=
  items.filter fun d => !(rev == d.Status.LastAttemptedRevision)

/-- The steps of a handler after a successful listing: filter, sort, convert. -/
def requestsOf (rev : String) (items : List Kustomization) : List reconcile.Request :=
  match dependency.sort ((pending rev items).map Kustomization.GetDependsOn) with
  | .error _ => []
  | .ok sorted => sorted.map fun s => ⟨⟨s.Namespace, s.Name⟩⟩

/-! ## Example objects -/

/-- A cache whose every query answers with the same consumers. -/
def cacheOf (items : List Kustomization) : KustomizationReconciler :=
  ⟨fun _ _ => .ok ⟨items⟩⟩

/-- A cache whose every query fails. -/
def brokenCache : KustomizationReconciler :=
  ⟨fun _ _ => .error ⟨"the cache is not started"⟩⟩

/-- The repository `ns/repo1` at revision `rev-A`. -/
def repo1 : GitRepository := ⟨"ns", "repo1", ⟨some ⟨"rev-A"⟩⟩⟩

/-- The bucket `ns/bucket1` at revision `rev-A`. -/
def bucket1 : Bucket := ⟨"ns", "bucket1", ⟨some ⟨"rev-A"⟩⟩⟩

/-- The repository `ns/repo1` before its first artifact. -/
def repoWithoutArtifact : GitRepository := ⟨"ns", "repo1", ⟨none⟩⟩

/-- The bucket `ns/bucket1` before its first artifact. -/
def bucketWithoutArtifact : Bucket := ⟨"ns", "bucket1", ⟨none⟩⟩

/-- A consumer in namespace `ns` of the repository `repo1`, its reference
without a namespace, with prerequisites in `ns` and a last attempted revision. -/
def consumer (name : String) (dependsOn : List String) (lastAttempted : String) :
    Kustomization :=
  ⟨"ns", name, ⟨dependsOn.map fun n => ⟨"ns", n⟩, ⟨GitRepositoryKind, "", "repo1"⟩⟩,
    ⟨lastAttempted⟩⟩

/-- The consumer `ns/app1`, behind the source. -/
def app1 : Kustomization := consumer "app1" [] "rev-0"

/-- The consumer `ns/app2`, behind the source, which depends on `app1`. -/
def app2 : Kustomization := consumer "app2" ["app1"] "rev-0"

/-- The consumer `ns/app2` at the revision of the source, which depends on `app1`. -/
def app2Current : Kustomization := consumer "app2" ["app1"] "rev-A"

/-- The consumer `ns/app1`, behind the source, which depends on `app2`. -/
def app1OnApp2 : Kustomization := consumer "app1" ["app2"] "rev-0"

/-- A consumer of the bucket `bucket1` with an explicit source namespace. -/
def bucketConsumer : Kustomization :=
  ⟨"ns", "app3", ⟨[], ⟨BucketKind, "infra", "bucket1"⟩⟩, ⟨"rev-0"⟩⟩

/-- A consumer of the bucket named `repo1`, its reference without a namespace. -/
def bucketConsumerOfRepo1 : Kustomization :=
  ⟨"ns", "app4", ⟨[], ⟨BucketKind, "", "repo1"⟩⟩, ⟨"rev-0"⟩⟩

/-! ## Effective namespace, repeated delivery and kinds -/

/-- The source namespace a consumer refers to, in the words of section 4.1: the
explicit `sourceRef.namespace` if set, else the namespace of the consumer. -/
def effectiveNamespace (k : Kustomization) : String :=
  if k.Spec.SourceRef.Namespace = "" then k.Namespace else k.Spec.SourceRef.Namespace

/-- A listing after the reconciliation of the requested consumers has begun:
every consumer named in `reqs` has `Status.LastAttemptedRevision` set to `rev`,
all else unchanged. -/
def markAttempted (rev : String) (reqs : List reconcile.Request)
    (items : List Kustomization) : List Kustomization :=
  items.map fun k => if requestFor k ∈ reqs then { k with Status := ⟨rev⟩ } else k

/-- A consumer with the kind of its source reference replaced, all else unchanged. -/
def withKind (k : Kustomization) (kind : String) : Kustomization :=
  { k with Spec := { k.Spec with SourceRef := { k.Spec.SourceRef with Kind := kind } } }

/-- A consumer of the repository `c` in the source namespace `a/b`. -/
def consumerOfSlashNamespace : Kustomization :=
  ⟨"ns", "app5", ⟨[], ⟨GitRepositoryKind, "a/b", "c"⟩⟩, ⟨"rev-0"⟩⟩

/-- A consumer of the repository `b/c` in the source namespace `a`. -/
def consumerOfSlashName : Kustomization :=
  ⟨"ns", "app6", ⟨[], ⟨GitRepositoryKind, "a", "b/c"⟩⟩, ⟨"rev-0"⟩⟩

/-- An object that is neither a source nor a consumer. -/
def configMap : Object := .other "*v1.ConfigMap" "ns" "settings"

/-- A cache with one index entry: the query of the index `field` at `key`
answers with `items`, every other query fails. -/
def cacheAt (field key : String) (items : List Kustomization) : KustomizationReconciler :=
  ⟨fun f k => if f = field ∧ k = key then .ok ⟨items⟩ else .error ⟨"no such index entry"⟩⟩

/-- The bucket `infra/bucket1` at revision `rev-A`. -/
def infraBucket1 : Bucket := ⟨"infra", "bucket1", ⟨some ⟨"rev-A"⟩⟩⟩

end controllers

namespace dependency

/-- A dependent with its prerequisites restricted to the identities in `ids`. -/
def restrict (ids : List CrossNamespaceDependencyReference) (d : Dependent) : Dependent :=
  ⟨d.name, d.dependsOn.filter fun b => ids.contains b⟩

/-- Two lists hold the same dependents up to their order and up to
prerequisites that are not the identity of any member. -/
def Similar (l l2 : List Dependent) : Prop :=
  ∃ ids : List CrossNamespaceDependencyReference,
    (∀ e ∈ l, e.ref ∈ ids) ∧ (l.map (restrict ids)).Perm (l2.map (restrict ids))

end dependency

/-! ## The sequencer: what `sort` guarantees -/

namespace dependency

theorem least_eq_none {l : List Dependent} (h : least l = none) : l = [] := by
  cases l with
  | nil => rfl
  | cons d ds =>
    simp only [least] at h
    split at h
    · cases h
    · split at h <;> cases h

theorem least_mem {l : List Dependent} {m : Dependent} (h : least l = some m) : m ∈ l := by
  induction l generalizing m with
  | nil => cases h
  | cons d ds ih =>
    simp only [least] at h
    split at h
    · cases h; exact List.mem_cons_self _ _
    · rename_i m0 hm0
      split at h
      · cases h; exact List.mem_cons_self _ _
      · cases h; exact List.mem_cons_of_mem _ (ih hm0)

theorem ready_iff {rem : List Dependent} {d : Dependent} :
    ready rem d = true ↔ ∀ e ∈ rem, e.ref ∉ d.dependsOn := by
  simp [ready]

theorem next_some {rem : List Dependent} {d : Dependent} (h : next rem = some d) :
    d ∈ rem ∧ ∀ e ∈ rem, e.ref ∉ d.dependsOn := by
  have hm := least_mem h
  rw [List.mem_filter] at hm
  exact ⟨hm.1, ready_iff.mp hm.2⟩

theorem next_none {rem : List Dependent} (h : next rem = none) :
    ∀ d ∈ rem, ∃ e ∈ rem, e.ref ∈ d.dependsOn := by
  intro d hd
  have hnil := least_eq_none h
  by_contra hcon
  have hr : ready rem d = true := by
    rw [ready_iff]
    intro e he hmem
    exact hcon ⟨e, he, hmem⟩
  have : d ∈ rem.filter (ready rem) := List.mem_filter.mpr ⟨hd, hr⟩
  rw [hnil] at this
  cases this

/-- A successful run returns the dependents it was given, each once. -/
theorem order_perm : ∀ (n : Nat) (rem out : List Dependent),
    rem.length ≤ n → order n rem = some out → out.Perm rem := by
  intro n
  induction n with
  | zero =>
    intro rem out hlen h
    have : rem = [] := List.length_eq_zero.mp (Nat.le_zero.mp hlen)
    subst this
    simp only [order] at h
    cases h
    exact List.Perm.refl _
  | succ n ih =>
    intro rem out hlen h
    simp only [order] at h
    split at h
    · rename_i hemp
      cases h
      rw [List.isEmpty_iff] at hemp
      subst hemp
      exact List.Perm.refl _
    · split at h
      · cases h
      · rename_i d hd
        have hmem := (next_some hd).1
        cases hrec : order n (rem.erase d) with
        | none => rw [hrec] at h; cases h
        | some out0 =>
          rw [hrec] at h
          simp only [Option.map_some', Option.some.injEq] at h
          subst h
          have hl : (rem.erase d).length ≤ n := by
            rw [List.length_erase_of_mem hmem]; omega
          exact ((ih _ _ hl hrec).cons d).trans (List.perm_cons_erase hmem).symm

/-- A successful run returns the dependents in dependency order. -/
theorem order_topo : ∀ (n : Nat) (rem out : List Dependent),
    rem.length ≤ n → order n rem = some out → Topo out := by
  intro n
  induction n with
  | zero =>
    intro rem out _ h
    simp only [order] at h
    cases h
    trivial
  | succ n ih =>
    intro rem out hlen h
    simp only [order] at h
    split at h
    · cases h; trivial
    · split at h
      · cases h
      · rename_i d hd
        obtain ⟨hmem, hready⟩ := next_some hd
        cases hrec : order n (rem.erase d) with
        | none => rw [hrec] at h; cases h
        | some out0 =>
          rw [hrec] at h
          simp only [Option.map_some', Option.some.injEq] at h
          subst h
          have hl : (rem.erase d).length ≤ n := by
            rw [List.length_erase_of_mem hmem]; omega
          refine ⟨?_, ih _ _ hl hrec⟩
          intro e he
          have hp : (d :: out0).Perm rem :=
            ((order_perm _ _ _ hl hrec).cons d).trans (List.perm_cons_erase hmem).symm
          exact hready e (hp.subset he)

theorem edge_mono {ds ds' : List Dependent} (hsub : ∀ d ∈ ds, d ∈ ds')
    {a b : CrossNamespaceDependencyReference} (h : Edge ds a b) : Edge ds' a b := by
  obtain ⟨d, hd, hda, hb, e, he, heb⟩ := h
  exact ⟨d, hsub d hd, hda, hb, e, hsub e he, heb⟩

theorem hasCycle_mono {ds ds' : List Dependent} (hsub : ∀ d ∈ ds, d ∈ ds')
    (h : HasCycle ds) : HasCycle ds' := by
  obtain ⟨a, ha⟩ := h
  exact ⟨a, Relation.TransGen.mono (fun _ _ hab => edge_mono hsub hab) ha⟩

/-- A run on a list with a non-empty part whose members each declare the
identity of a member of the part finds no way out: it ends in `none`. -/
theorem order_none_of_stuck (P : Dependent → Prop)
    (hP : ∀ d, P d → ∃ e, P e ∧ e.ref ∈ d.dependsOn) :
    ∀ (n : Nat) (rem : List Dependent), rem.length ≤ n → (∀ d, P d → d ∈ rem) →
      (∃ d, P d) → order n rem = none := by
  intro n
  induction n with
  | zero =>
    intro rem hlen hsub hex
    obtain ⟨d, hd⟩ := hex
    have hmem := hsub d hd
    have : rem = [] := List.length_eq_zero.mp (Nat.le_zero.mp hlen)
    rw [this] at hmem
    cases hmem
  | succ n ih =>
    intro rem hlen hsub hex
    have hne : rem.isEmpty = false := by
      obtain ⟨d, hd⟩ := hex
      have hmem := hsub d hd
      cases rem with
      | nil => cases hmem
      | cons _ _ => rfl
    simp only [order, hne, Bool.false_eq_true, if_false]
    cases hnext : next rem with
    | none => rfl
    | some d0 =>
      obtain ⟨hmem, hready⟩ := next_some hnext
      have hl : (rem.erase d0).length ≤ n := by
        rw [List.length_erase_of_mem hmem]; omega
      have hsub' : ∀ d, P d → d ∈ rem.erase d0 := by
        intro d hd
        have hne' : d ≠ d0 := by
          intro heq
          subst heq
          obtain ⟨e, hPe, hdep⟩ := hP d hd
          exact hready e (hsub e hPe) hdep
        exact (List.mem_erase_of_ne hne').mpr (hsub d hd)
      simp only [ih _ hl hsub' hex, Option.map_none']

/-- The sequencer fails on every list with a dependency cycle. -/
theorem sort_error_of_hasCycle {ds : List Dependent} (h : HasCycle ds) :
    sort ds = .error .cycle := by
  have hnone : order ds.length ds = none := by
    refine order_none_of_stuck
      (fun d => d ∈ ds ∧ ∃ b ∈ d.dependsOn, (∃ e ∈ ds, e.ref = b) ∧
        Relation.ReflTransGen (Edge ds) b d.ref) ?_ ds.length ds (Nat.le_refl _)
      (fun d hd => hd.1) ?_
    · rintro d ⟨hd, b, hb, ⟨e0, he0, he0b⟩, hreach⟩
      rcases Relation.ReflTransGen.cases_head hreach with heq | ⟨c, hbc, hcd⟩
      · exact ⟨d, ⟨hd, b, hb, ⟨e0, he0, he0b⟩, hreach⟩, by rw [← heq]; exact hb⟩
      · obtain ⟨e1, he1, he1b, hc, e2, he2, he2c⟩ := hbc
        refine ⟨e1, ⟨he1, c, hc, ⟨e2, he2, he2c⟩, ?_⟩, by rw [he1b]; exact hb⟩
        rw [he1b]
        exact hcd.tail ⟨d, hd, rfl, hb, e0, he0, he0b⟩
    · obtain ⟨a, ha⟩ := h
      obtain ⟨b, hab, hba⟩ := Relation.TransGen.head'_iff.mp ha
      obtain ⟨d, hd, hda, hb, e, he, heb⟩ := hab
      exact ⟨d, hd, b, hb, ⟨e, he, heb⟩, by rw [hda]; exact hba⟩
  simp only [sort, hnone]

/-- In a finite non-empty set whose every member has a successor in the set,
some member reaches itself. -/
theorem exists_transGen_self {α : Type} (S : Finset α) (R : α → α → Prop)
    (hne : S.Nonempty) (hsucc : ∀ a ∈ S, ∃ b ∈ S, R a b) :
    ∃ a ∈ S, Relation.TransGen R a a := by
  by_contra hcon
  have hirr : ∀ a ∈ S, ¬ Relation.TransGen R a a := fun a ha h => hcon ⟨a, ha, h⟩
  let r : {x // x ∈ S} → {x // x ∈ S} → Prop := fun x y => Relation.TransGen R y.1 x.1
  haveI : IsTrans {x // x ∈ S} r := ⟨fun _ _ _ hxy hyz => Relation.TransGen.trans hyz hxy⟩
  haveI : IsIrrefl {x // x ∈ S} r := ⟨fun x hx => hirr x.1 x.2 hx⟩
  have hwf : WellFounded r := Finite.wellFounded_of_trans_of_irrefl r
  obtain ⟨a0, ha0⟩ := hne
  obtain ⟨m, -, hmin⟩ := hwf.has_min Set.univ ⟨⟨a0, ha0⟩, trivial⟩
  obtain ⟨b, hb, hmb⟩ := hsucc m.1 m.2
  exact hmin ⟨b, hb⟩ trivial (Relation.TransGen.single hmb)

/-- A non-empty list on which no dependent is ready has a dependency cycle. -/
theorem hasCycle_of_stuck {rem : List Dependent} (hne : rem ≠ [])
    (hstuck : ∀ d ∈ rem, ∃ e ∈ rem, e.ref ∈ d.dependsOn) : HasCycle rem := by
  classical
  have hS : (rem.map Dependent.ref).toFinset.Nonempty := by
    cases rem with
    | nil => exact absurd rfl hne
    | cons d ds => exact ⟨d.ref, by simp⟩
  obtain ⟨a, -, ha⟩ := exists_transGen_self (rem.map Dependent.ref).toFinset (Edge rem) hS (by
    intro a ha
    rw [List.mem_toFinset, List.mem_map] at ha
    obtain ⟨d, hd, hda⟩ := ha
    obtain ⟨e, he, hdep⟩ := hstuck d hd
    exact ⟨e.ref, by rw [List.mem_toFinset]; exact List.mem_map_of_mem _ he,
      d, hd, hda, hdep, e, he, rfl⟩)
  exact ⟨a, ha⟩

/-- Without a dependency cycle every run returns a list. -/
theorem order_some_of_acyclic : ∀ (n : Nat) (rem : List Dependent),
    ¬ HasCycle rem → ∃ out, order n rem = some out := by
  intro n
  induction n with
  | zero => intro rem _; exact ⟨[], rfl⟩
  | succ n ih =>
    intro rem hac
    simp only [order]
    split
    · exact ⟨[], rfl⟩
    · rename_i hemp
      have hne : rem ≠ [] := by
        intro h; apply hemp; rw [h]; rfl
      cases hnext : next rem with
      | none => exact absurd (hasCycle_of_stuck hne (next_none hnext)) hac
      | some d =>
        obtain ⟨out, hout⟩ := ih (rem.erase d)
          (fun h => hac (hasCycle_mono (fun _ hx => List.mem_of_mem_erase hx) h))
        exact ⟨d :: out, by simp [hout]⟩

/-- The sequencer succeeds exactly on the lists without a dependency cycle. -/
theorem sort_ok_of_acyclic {ds : List Dependent} (h : ¬ HasCycle ds) :
    ∃ out, out.Perm ds ∧ Topo out ∧ sort ds = .ok (out.map Dependent.ref) := by
  obtain ⟨out, hout⟩ := order_some_of_acyclic ds.length ds h
  exact ⟨out, order_perm _ _ _ (Nat.le_refl _) hout, order_topo _ _ _ (Nat.le_refl _) hout,
    by simp only [sort, hout]⟩

/-- What a successful `sort` returns: the identities of a dependency-ordered
rearrangement of its input. -/
theorem sort_ok {ds : List Dependent} {sorted : List CrossNamespaceDependencyReference}
    (h : sort ds = .ok sorted) :
    ∃ out, out.Perm ds ∧ Topo out ∧ sorted = out.map Dependent.ref := by
  simp only [sort] at h
  split at h
  · rename_i out hout
    cases h
    exact ⟨out, order_perm _ _ _ (Nat.le_refl _) hout, order_topo _ _ _ (Nat.le_refl _) hout, rfl⟩
  · cases h

/-- In a dependency-ordered list the identity at a position is not declared by
a member at that position or before it. -/
theorem topo_not_mem_of_le : ∀ {out : List Dependent}, Topo out →
    ∀ (i j : Nat) (di dj : Dependent), out[i]? = some di → out[j]? = some dj → i ≤ j →
      dj.ref ∉ di.dependsOn := by
  intro out
  induction out with
  | nil => intro _ i j di dj hi; simp at hi
  | cons d ds ih =>
    intro ht i j di dj hi hj hij
    cases i with
    | zero =>
      simp only [List.getElem?_cons_zero, Option.some.injEq] at hi
      subst hi
      exact ht.1 dj (List.mem_iff_getElem?.mpr ⟨_, hj⟩)
    | succ i =>
      cases j with
      | zero => omega
      | succ j =>
        simp only [List.getElem?_cons_succ] at hi hj
        exact ih ht.2 i j di dj hi hj (by omega)

/-- A list that `sort` orders has no dependency cycle. -/
theorem not_hasCycle_of_sort_ok {ds : List Dependent}
    {sorted : List CrossNamespaceDependencyReference} (h : sort ds = .ok sorted) :
    ¬ HasCycle ds := by
  intro hc
  rw [sort_error_of_hasCycle hc] at h
  cases h

/-! ### The order does not depend on the order of the input -/

theorem refLE_iff {a b : CrossNamespaceDependencyReference} :
    refLE a b = true ↔ a.Namespace.toList < b.Namespace.toList ∨
      (a.Namespace = b.Namespace ∧ ¬ b.Name.toList < a.Name.toList) := by
  simp [refLE]

theorem refLE_total (a b : CrossNamespaceDependencyReference) :
    refLE a b = true ∨ refLE b a = true := by
  rw [refLE_iff, refLE_iff]
  rcases lt_trichotomy a.Namespace.toList b.Namespace.toList with h | h | h
  · exact Or.inl (Or.inl h)
  · have hns : a.Namespace = b.Namespace := String.ext h
    by_cases hn : b.Name.toList < a.Name.toList
    · exact Or.inr (Or.inr ⟨hns.symm, lt_asymm hn⟩)
    · exact Or.inl (Or.inr ⟨hns, hn⟩)
  · exact Or.inr (Or.inl h)

theorem refLE_trans {a b c : CrossNamespaceDependencyReference}
    (hab : refLE a b = true) (hbc : refLE b c = true) : refLE a c = true := by
  rw [refLE_iff] at hab hbc ⊢
  rcases hab with h1 | ⟨h1, h1n⟩
  · rcases hbc with h2 | ⟨h2, -⟩
    · exact Or.inl (lt_trans h1 h2)
    · exact Or.inl (by rw [← h2]; exact h1)
  · rcases hbc with h2 | ⟨h2, h2n⟩
    · exact Or.inl (by rw [h1]; exact h2)
    · exact Or.inr ⟨h1.trans h2, fun h => h2n (lt_of_lt_of_le h (not_lt.mp h1n))⟩

theorem refLE_antisymm {a b : CrossNamespaceDependencyReference}
    (hab : refLE a b = true) (hba : refLE b a = true) : a = b := by
  rw [refLE_iff] at hab hba
  have hns : a.Namespace = b.Namespace := by
    rcases hab with h1 | ⟨h1, -⟩
    · rcases hba with h2 | ⟨h2, -⟩
      · exact absurd h2 (lt_asymm h1)
      · exact h2.symm
    · exact h1
  have hirr : ¬ a.Namespace.toList < b.Namespace.toList := by
    rw [hns]; exact lt_irrefl _
  have hirr2 : ¬ b.Namespace.toList < a.Namespace.toList := by
    rw [hns]; exact lt_irrefl _
  have h1 : ¬ b.Name.toList < a.Name.toList := by
    rcases hab with h | ⟨-, h⟩
    · exact absurd h hirr
    · exact h
  have h2 : ¬ a.Name.toList < b.Name.toList := by
    rcases hba with h | ⟨-, h⟩
    · exact absurd h hirr2
    · exact h
  have hn : a.Name = b.Name := String.ext (le_antisymm (not_lt.mp h1) (not_lt.mp h2))
  cases a
  cases b
  simp only [CrossNamespaceDependencyReference.mk.injEq]
  exact ⟨hns, hn⟩

/-- The member `least` returns is below every member. -/
theorem least_le : ∀ {l : List Dependent} {m : Dependent}, least l = some m →
    ∀ e ∈ l, refLE m.ref e.ref = true := by
  intro l
  induction l with
  | nil => intro m h; cases h
  | cons d ds ih =>
    intro m h e he
    have hrefl : ∀ x : CrossNamespaceDependencyReference, refLE x x = true :=
      fun x => (refLE_total x x).elim id id
    simp only [least] at h
    split at h
    · rename_i hnone
      cases h
      have hds := least_eq_none hnone
      subst hds
      rw [List.mem_singleton] at he
      rw [he]
      exact hrefl _
    · rename_i m0 hm0
      split at h
      · rename_i hle
        cases h
        rcases List.mem_cons.mp he with rfl | hmem
        · exact hrefl _
        · exact refLE_trans hle (ih hm0 e hmem)
      · rename_i hle
        cases h
        rcases List.mem_cons.mp he with rfl | hmem
        · exact (refLE_total m.ref e.ref).resolve_right hle
        · exact ih hm0 e hmem

theorem ref_restrict (ids : List CrossNamespaceDependencyReference) (d : Dependent) :
    (restrict ids d).ref = d.ref := rfl

theorem name_eq_of_ref_eq {d e : Dependent} (h : d.ref = e.ref) : d.name = e.name := by
  cases d with
  | mk dn dd =>
    cases e with
    | mk en ed =>
      cases dn
      cases en
      simp only [Dependent.ref, CrossNamespaceDependencyReference.mk.injEq] at h
      simp only [types.NamespacedName.mk.injEq]
      exact h

/-- A dependent is ready in a list when, restricted to the identities of the
list, it has no prerequisite. -/
theorem ready_iff_restrict {l : List Dependent} {ids : List CrossNamespaceDependencyReference}
    (hids : ∀ x, x ∈ ids ↔ x ∈ l.map Dependent.ref) (d : Dependent) :
    ready l d = true ↔ (restrict ids d).dependsOn = [] := by
  rw [ready_iff]
  simp only [restrict, List.filter_eq_nil_iff]
  constructor
  · intro h b hb hc
    obtain ⟨e, he, heq⟩ := List.mem_map.mp ((hids b).mp (List.elem_iff.mp hc))
    exact h e he (by rw [heq]; exact hb)
  · intro h e he hmem
    exact h e.ref hmem (List.elem_iff.mpr ((hids e.ref).mpr (List.mem_map_of_mem _ he)))

theorem restrict_restrict {ids ids2 : List CrossNamespaceDependencyReference}
    (hsub : ∀ x ∈ ids2, x ∈ ids) (d : Dependent) :
    restrict ids2 (restrict ids d) = restrict ids2 d := by
  simp only [restrict, List.filter_filter, Dependent.mk.injEq, true_and]
  apply List.filter_congr
  intro b _
  by_cases hb : b ∈ ids2
  · simp [hb, hsub b hb]
  · simp [hb]

theorem similar_refs {l l2 : List Dependent} (h : Similar l l2) :
    (l.map Dependent.ref).Perm (l2.map Dependent.ref) := by
  obtain ⟨ids, -, hperm⟩ := h
  have := hperm.map Dependent.ref
  simp only [List.map_map] at this
  exact this

theorem similar_own_ids {l l2 : List Dependent} (h : Similar l l2) :
    (l.map (restrict (l.map Dependent.ref))).Perm
      (l2.map (restrict (l.map Dependent.ref))) := by
  obtain ⟨ids, hids, hperm⟩ := h
  have hsub : ∀ x ∈ l.map Dependent.ref, x ∈ ids := by
    intro x hx
    obtain ⟨e, he, rfl⟩ := List.mem_map.mp hx
    exact hids e he
  have hcomp : ∀ l0 : List Dependent,
      (l0.map (restrict ids)).map (restrict (l.map Dependent.ref)) =
        l0.map (restrict (l.map Dependent.ref)) := by
    intro l0
    rw [List.map_map]
    apply List.map_congr_left
    intro d _
    exact restrict_restrict hsub d
  have := hperm.map (restrict (l.map Dependent.ref))
  rwa [hcomp, hcomp] at this

theorem next_ready {a : List Dependent} {d : Dependent} (h : next a = some d) :
    d ∈ a ∧ ready a d = true := by
  have hm := least_mem h
  rw [List.mem_filter] at hm
  exact hm

/-- A ready member of one list has a ready counterpart in a similar list. -/
theorem ready_transfer {a b : List Dependent} {ids : List CrossNamespaceDependencyReference}
    (ha : ∀ x, x ∈ ids ↔ x ∈ a.map Dependent.ref)
    (hb : ∀ x, x ∈ ids ↔ x ∈ b.map Dependent.ref)
    (hp : (a.map (restrict ids)).Perm (b.map (restrict ids)))
    {d : Dependent} (hd : d ∈ a) (hr : ready a d = true) :
    ∃ e ∈ b, ready b e = true ∧ restrict ids e = restrict ids d := by
  have hmem : restrict ids d ∈ b.map (restrict ids) :=
    hp.subset (List.mem_map_of_mem _ hd)
  obtain ⟨e, he, heq⟩ := List.mem_map.mp hmem
  refine ⟨e, he, ?_, heq⟩
  rw [ready_iff_restrict hb, heq]
  exact (ready_iff_restrict ha d).mp hr

theorem next_none_transfer {a b : List Dependent}
    {ids : List CrossNamespaceDependencyReference}
    (ha : ∀ x, x ∈ ids ↔ x ∈ a.map Dependent.ref)
    (hb : ∀ x, x ∈ ids ↔ x ∈ b.map Dependent.ref)
    (hp : (a.map (restrict ids)).Perm (b.map (restrict ids)))
    (h : next a = none) : next b = none := by
  cases hn : next b with
  | none => rfl
  | some d2 =>
    obtain ⟨hd2, hr2⟩ := next_ready hn
    obtain ⟨e, he, hre, -⟩ := ready_transfer hb ha hp.symm hd2 hr2
    have hnil := least_eq_none h
    have : e ∈ a.filter (ready a) := List.mem_filter.mpr ⟨he, hre⟩
    rw [hnil] at this
    cases this

theorem next_ref_le {a b : List Dependent} {ids : List CrossNamespaceDependencyReference}
    (ha : ∀ x, x ∈ ids ↔ x ∈ a.map Dependent.ref)
    (hb : ∀ x, x ∈ ids ↔ x ∈ b.map Dependent.ref)
    (hp : (a.map (restrict ids)).Perm (b.map (restrict ids)))
    {d d2 : Dependent} (hd : next a = some d) (hd2 : next b = some d2) :
    refLE d2.ref d.ref = true := by
  obtain ⟨hmem, hr⟩ := next_ready hd
  obtain ⟨e, he, hre, heq⟩ := ready_transfer ha hb hp hmem hr
  have href : e.ref = d.ref := by
    have := congrArg Dependent.ref heq
    simpa only [ref_restrict] using this
  rw [← href]
  exact least_le hd2 e (List.mem_filter.mpr ⟨he, hre⟩)

/-- Similar lists are emitted with the same identities in the same order. -/
theorem order_similar : ∀ (n : Nat) (l l2 : List Dependent), Similar l l2 →
    (order n l).map (List.map Dependent.ref) = (order n l2).map (List.map Dependent.ref) := by
  intro n
  induction n with
  | zero => intro l l2 _; rfl
  | succ n ih =>
    intro l l2 hsim
    have hp := similar_own_ids hsim
    have hrefs := similar_refs hsim
    have hlen : l.length = l2.length := by
      simpa only [List.length_map] using hrefs.length_eq
    have ha : ∀ x, x ∈ l.map Dependent.ref ↔ x ∈ l.map Dependent.ref := fun _ => Iff.rfl
    have hb : ∀ x, x ∈ l.map Dependent.ref ↔ x ∈ l2.map Dependent.ref :=
      fun _ => hrefs.mem_iff
    by_cases hnil : l = []
    · have hnil2 : l2 = [] := List.length_eq_zero.mp (by rw [← hlen, hnil]; rfl)
      subst hnil
      subst hnil2
      rfl
    · have hnil2 : l2 ≠ [] := fun h => hnil (List.length_eq_zero.mp (by rw [hlen, h]; rfl))
      have he1 : l.isEmpty = false := by
        cases l with
        | nil => exact absurd rfl hnil
        | cons _ _ => rfl
      have he2 : l2.isEmpty = false := by
        cases l2 with
        | nil => exact absurd rfl hnil2
        | cons _ _ => rfl
      simp only [order, he1, he2, Bool.false_eq_true, if_false]
      cases hn : next l with
      | none => rw [next_none_transfer ha hb hp hn]
      | some d =>
        cases hn2 : next l2 with
        | none =>
          rw [next_none_transfer hb ha hp.symm hn2] at hn
          cases hn
        | some d2 =>
          obtain ⟨hd, hr⟩ := next_ready hn
          obtain ⟨hd2, hr2⟩ := next_ready hn2
          have href : d.ref = d2.ref :=
            refLE_antisymm (next_ref_le hb ha hp.symm hn2 hn) (next_ref_le ha hb hp hn hn2)
          have hR : restrict (l.map Dependent.ref) d = restrict (l.map Dependent.ref) d2 := by
            have h1 := (ready_iff_restrict ha d).mp hr
            have h2 := (ready_iff_restrict hb d2).mp hr2
            have hname := name_eq_of_ref_eq href
            cases hrd : restrict (l.map Dependent.ref) d with
            | mk n1 deps1 =>
              cases hrd2 : restrict (l.map Dependent.ref) d2 with
              | mk n2 deps2 =>
                rw [hrd] at h1
                rw [hrd2] at h2
                have e1 : n1 = d.name := by
                  have := congrArg Dependent.name hrd; exact this.symm
                have e2 : n2 = d2.name := by
                  have := congrArg Dependent.name hrd2; exact this.symm
                simp only at h1 h2
                rw [h1, h2, e1, e2, hname]
          have hsim2 : Similar (l.erase d) (l2.erase d2) := by
            refine ⟨l.map Dependent.ref,
              fun e he => List.mem_map_of_mem _ (List.mem_of_mem_erase he), ?_⟩
            have p1 := (List.perm_cons_erase hd).map (restrict (l.map Dependent.ref))
            have p2 := (List.perm_cons_erase hd2).map (restrict (l.map Dependent.ref))
            simp only [List.map_cons] at p1 p2
            rw [← hR] at p2
            exact ((p1.symm.trans hp).trans p2).cons_inv
          have hih := ih _ _ hsim2
          show Option.map (List.map Dependent.ref)
              (Option.map (fun x => d :: x) (order n (l.erase d))) =
            Option.map (List.map Dependent.ref)
              (Option.map (fun x => d2 :: x) (order n (l2.erase d2)))
          cases h1 : order n (l.erase d) with
          | none =>
            cases h2 : order n (l2.erase d2) with
            | none => rfl
            | some o2 => rw [h1, h2] at hih; cases hih
          | some o1 =>
            cases h2 : order n (l2.erase d2) with
            | none => rw [h1, h2] at hih; cases hih
            | some o2 =>
              rw [h1, h2] at hih
              simp only [Option.map_some', Option.some.injEq] at hih
              simp only [Option.map_some', List.map_cons, hih, href]

/-- The sequencer returns the same on every rearrangement of a list. -/
theorem sort_perm {l l2 : List Dependent} (h : l.Perm l2) : sort l = sort l2 := by
  have hsim : Similar l l2 :=
    ⟨l.map Dependent.ref, fun e he => List.mem_map_of_mem _ he, h.map _⟩
  have ho := order_similar l.length l l2 hsim
  simp only [sort, ← h.length_eq]
  cases h1 : order l.length l with
  | none =>
    cases h2 : order l.length l2 with
    | none => rfl
    | some o2 => rw [h1, h2] at ho; cases ho
  | some o1 =>
    cases h2 : order l.length l2 with
    | none => rw [h1, h2] at ho; cases ho
    | some o2 =>
      rw [h1, h2] at ho
      simp only [Option.map_some', Option.some.injEq] at ho
      simp only [ho]

end dependency

/-! ## The handlers as one pipeline -/

namespace controllers

open kustomizev1 sourcev1

theorem requestsForGitRepositoryRevisionChange_eq (r : KustomizationReconciler)
    (repo : GitRepository) (artifact : Artifact) (list : KustomizationList)
    (ha : repo.GetArtifact = some artifact)
    (hl : r.List GitRepositoryIndexKey (ObjectKey (.gitRepository repo)).string = .ok list) :
    requestsForGitRepositoryRevisionChange r (.gitRepository repo) =
      .ok (requestsOf artifact.Revision list.Items) := by
  simp only [requestsForGitRepositoryRevisionChange, ha, hl, requestsOf, pending]
  cases dependency.sort _ <;> rfl

theorem requestsForBucketRevisionChange_eq (r : KustomizationReconciler)
    (bucket : Bucket) (artifact : Artifact) (list : KustomizationList)
    (ha : bucket.GetArtifact = some artifact)
    (hl : r.List BucketIndexKey (ObjectKey (.bucket bucket)).string = .ok list) :
    requestsForBucketRevisionChange r (.bucket bucket) =
      .ok (requestsOf artifact.Revision list.Items) := by
  simp only [requestsForBucketRevisionChange, ha, hl, requestsOf, pending]
  cases dependency.sort _ <;> rfl

theorem mem_pending {rev : String} {items : List Kustomization} {k : Kustomization} :
    k ∈ pending rev items ↔ k ∈ items ∧ k.Status.LastAttemptedRevision ≠ rev := by
  simp only [pending, List.mem_filter, Bool.not_eq_true', beq_eq_false_iff_ne, ne_eq]
  constructor
  · rintro ⟨h1, h2⟩; exact ⟨h1, fun h => h2 h.symm⟩
  · rintro ⟨h1, h2⟩; exact ⟨h1, fun h => h2 h.symm⟩

theorem pending_eq_filter (rev : String) (items : List Kustomization) :
    pending rev items = items.filter fun d => d.Status.LastAttemptedRevision ≠ rev := by
  unfold pending
  apply List.filter_congr
  intro d _
  by_cases h : rev = d.Status.LastAttemptedRevision
  · simp [h]
  · have h' : ¬ d.Status.LastAttemptedRevision = rev := fun e => h e.symm
    simp [h, h']

/-- Consumers of a listing with distinct names are equal when their requests are. -/
theorem eq_of_requestFor_eq {items : List Kustomization} (hd : DistinctNames items)
    {a b : Kustomization} (ha : a ∈ items) (hb : b ∈ items)
    (h : requestFor a = requestFor b) : a = b := by
  apply List.inj_on_of_nodup_map hd ha hb
  simp only [requestFor, reconcile.Request.mk.injEq, types.NamespacedName.mk.injEq] at h
  simp only [Prod.mk.injEq]
  exact h

/-- The outcome of the pipeline: nothing when the sequencer fails, and else the
requests of a dependency-ordered rearrangement of the pending consumers. -/
theorem requestsOf_cases (rev : String) (items : List Kustomization) :
    (dependency.HasCycle ((pending rev items).map Kustomization.GetDependsOn) ∧
        requestsOf rev items = []) ∨
      ∃ out : List dependency.Dependent,
        out.Perm ((pending rev items).map Kustomization.GetDependsOn) ∧ dependency.Topo out ∧
          requestsOf rev items = out.map fun d => ⟨d.name⟩ := by
  by_cases hc : dependency.HasCycle ((pending rev items).map Kustomization.GetDependsOn)
  · left
    refine ⟨hc, ?_⟩
    simp only [requestsOf, dependency.sort_error_of_hasCycle hc]
  · right
    obtain ⟨out, hperm, htopo, hsort⟩ := dependency.sort_ok_of_acyclic hc
    refine ⟨out, hperm, htopo, ?_⟩
    simp only [requestsOf, hsort, List.map_map]
    rfl

/-- The requests of the pipeline are requests of pending consumers, each at
most as often as the consumer is pending. -/
theorem requestsOf_perm_or_nil (rev : String) (items : List Kustomization) :
    requestsOf rev items = [] ∨
      (requestsOf rev items).Perm ((pending rev items).map requestFor) := by
  rcases requestsOf_cases rev items with ⟨-, h⟩ | ⟨out, hperm, -, h⟩
  · exact Or.inl h
  · right
    rw [h]
    have := hperm.map (fun d : dependency.Dependent => (⟨d.name⟩ : reconcile.Request))
    simpa only [List.map_map] using this

theorem mem_requestsOf {rev : String} {items : List Kustomization} {q : reconcile.Request}
    (h : q ∈ requestsOf rev items) : ∃ k ∈ pending rev items, requestFor k = q := by
  rcases requestsOf_perm_or_nil rev items with h0 | hp
  · rw [h0] at h; cases h
  · have := hp.subset h
    rw [List.mem_map] at this
    exact this

theorem pending_subset_map (rev : String) (items : List Kustomization) :
    ∀ d ∈ (pending rev items).map Kustomization.GetDependsOn,
      d ∈ items.map Kustomization.GetDependsOn := by
  intro d hd
  rw [List.mem_map] at hd ⊢
  obtain ⟨k, hk, hkd⟩ := hd
  exact ⟨k, (mem_pending.mp hk).1, hkd⟩

theorem nodup_pending_requests {rev : String} {items : List Kustomization}
    (hd : DistinctNames items) : ((pending rev items).map requestFor).Nodup := by
  have hnd : items.Nodup := List.Nodup.of_map _ hd
  have hnp : (pending rev items).Nodup := hnd.filter _
  refine List.Nodup.map_on ?_ hnp
  intro x hx y hy hxy
  exact eq_of_requestFor_eq hd (mem_pending.mp hx).1 (mem_pending.mp hy).1 hxy

/-- The pipeline never requests a consumer that is at the revision. -/
theorem requestsOf_not_current {rev : String} {items : List Kustomization}
    (hd : DistinctNames items) {k : Kustomization} (hk : k ∈ items)
    (hcur : k.Status.LastAttemptedRevision = rev) : requestFor k ∉ requestsOf rev items := by
  intro hmem
  obtain ⟨k0, hk0, hreq⟩ := mem_requestsOf hmem
  obtain ⟨hk0i, hne⟩ := mem_pending.mp hk0
  have : k0 = k := eq_of_requestFor_eq hd hk0i hk hreq
  subst this
  exact hne hcur

/-- Without a cycle the pipeline requests each pending consumer once. -/
theorem requestsOf_once {rev : String} {items : List Kustomization}
    (hd : DistinctNames items) (hac : ¬ HasDependencyCycle items) :
    (∀ k ∈ items, k.Status.LastAttemptedRevision ≠ rev →
        (requestsOf rev items).count (requestFor k) = 1) ∧
      (requestsOf rev items).length =
        (items.filter fun k => k.Status.LastAttemptedRevision ≠ rev).length := by
  have hac' : ¬ dependency.HasCycle ((pending rev items).map Kustomization.GetDependsOn) :=
    fun h => hac (dependency.hasCycle_mono (pending_subset_map rev items) h)
  rcases requestsOf_cases rev items with ⟨hc, -⟩ | ⟨out, hperm, -, h⟩
  · exact absurd hc hac'
  · have hp : (requestsOf rev items).Perm ((pending rev items).map requestFor) := by
      rw [h]
      have := hperm.map (fun d : dependency.Dependent => (⟨d.name⟩ : reconcile.Request))
      simpa only [List.map_map] using this
    constructor
    · intro k hk hne
      rw [hp.count_eq]
      exact List.count_eq_one_of_mem (nodup_pending_requests hd)
        (List.mem_map_of_mem _ (mem_pending.mpr ⟨hk, hne⟩))
    · rw [hp.length_eq, List.length_map, pending_eq_filter]

/-- The pipeline puts a prerequisite before the consumer that declares it. -/
theorem requestsOf_ordered {rev : String} {items : List Kustomization}
    (hd : DistinctNames items) {kB : Kustomization} (hB : kB ∈ items)
    {a : dependency.CrossNamespaceDependencyReference} (ha : a ∈ kB.Spec.DependsOn)
    {i j : Nat} (hi : (requestsOf rev items)[i]? = some (requestFor kB))
    (hj : (requestsOf rev items)[j]? = some ⟨⟨a.Namespace, a.Name⟩⟩) : j < i := by
  rcases requestsOf_cases rev items with ⟨-, h0⟩ | ⟨out, hperm, htopo, h⟩
  · rw [h0] at hi; simp at hi
  · rw [h, List.getElem?_map] at hi hj
    cases hdi : out[i]? with
    | none => rw [hdi] at hi; cases hi
    | some di =>
      cases hdj : out[j]? with
      | none => rw [hdj] at hj; cases hj
      | some dj =>
        rw [hdi] at hi
        rw [hdj] at hj
        simp only [Option.map_some', Option.some.injEq] at hi hj
        have hmem : di ∈ (pending rev items).map Kustomization.GetDependsOn :=
          hperm.subset (List.mem_iff_getElem?.mpr ⟨i, hdi⟩)
        rw [List.mem_map] at hmem
        obtain ⟨k0, hk0, hk0d⟩ := hmem
        have hreq : requestFor k0 = requestFor kB := by
          rw [← hi, ← hk0d]; rfl
        have hk : k0 = kB := eq_of_requestFor_eq hd (mem_pending.mp hk0).1 hB hreq
        have hdep : dj.ref ∈ di.dependsOn := by
          have h1 : dj.ref = a := by
            cases a
            simp only [reconcile.Request.mk.injEq] at hj
            simp only [dependency.Dependent.ref, hj]
          rw [h1, ← hk0d, hk]
          exact ha
        by_contra hle
        exact dependency.topo_not_mem_of_le htopo i j di dj hdi hdj (by omega) hdep

/-- The pipeline requests nothing when the pending consumers have a cycle. -/
theorem requestsOf_cycle {rev : String} {items : List Kustomization}
    (hc : HasDependencyCycle (pending rev items)) : requestsOf rev items = [] := by
  simp only [requestsOf, dependency.sort_error_of_hasCycle hc]

/-- The key of a consumer in the index of its kind. -/
theorem indexKey_matching (r : KustomizationReconciler) (k : Kustomization) :
    (k.Spec.SourceRef.Kind = GitRepositoryKind →
      (k.Spec.SourceRef.Namespace ≠ "" → indexByGitRepository r (.kustomization k) =
        .ok [k.Spec.SourceRef.Namespace ++ "/" ++ k.Spec.SourceRef.Name]) ∧
      (k.Spec.SourceRef.Namespace = "" → indexByGitRepository r (.kustomization k) =
        .ok [k.Namespace ++ "/" ++ k.Spec.SourceRef.Name])) ∧
    (k.Spec.SourceRef.Kind = BucketKind →
      (k.Spec.SourceRef.Namespace ≠ "" → indexByBucket r (.kustomization k) =
        .ok [k.Spec.SourceRef.Namespace ++ "/" ++ k.Spec.SourceRef.Name]) ∧
      (k.Spec.SourceRef.Namespace = "" → indexByBucket r (.kustomization k) =
        .ok [k.Namespace ++ "/" ++ k.Spec.SourceRef.Name])) := by
  constructor
  · intro hk
    constructor
    · intro hn
      simp only [indexByGitRepository, hk, if_true, ne_eq, hn, not_false_eq_true]
    · intro hn
      simp only [indexByGitRepository, hk, if_true, ne_eq, hn, not_true_eq_false, if_false,
        Kustomization.GetNamespace]
  · intro hk
    constructor
    · intro hn
      simp only [indexByBucket, hk, if_true, ne_eq, hn, not_false_eq_true]
    · intro hn
      simp only [indexByBucket, hk, if_true, ne_eq, hn, not_true_eq_false, if_false,
        Kustomization.GetNamespace]

/-- No key for a consumer in the index of another kind. -/
theorem indexKey_other (r : KustomizationReconciler) (k : Kustomization) :
    (k.Spec.SourceRef.Kind ≠ GitRepositoryKind →
      indexByGitRepository r (.kustomization k) = .ok []) ∧
    (k.Spec.SourceRef.Kind ≠ BucketKind →
      indexByBucket r (.kustomization k) = .ok []) := by
  constructor
  · intro hk
    simp only [indexByGitRepository, hk, if_false]
  · intro hk
    simp only [indexByBucket, hk, if_false]

/-- The repository index function returns at most one key, and one only for a
consumer of a repository. -/
theorem indexByGitRepository_keys (r : KustomizationReconciler) (k : Kustomization) :
    ∃ g, indexByGitRepository r (.kustomization k) = .ok g ∧ g.length ≤ 1 ∧
      (g ≠ [] → k.Spec.SourceRef.Kind = GitRepositoryKind) := by
  by_cases hk : k.Spec.SourceRef.Kind = GitRepositoryKind
  · refine ⟨[(if k.Spec.SourceRef.Namespace ≠ "" then k.Spec.SourceRef.Namespace
      else k.GetNamespace) ++ "/" ++ k.Spec.SourceRef.Name], ?_, Nat.le_refl _, fun _ => hk⟩
    simp only [indexByGitRepository, hk, if_true]
  · exact ⟨[], (indexKey_other r k).1 hk, Nat.zero_le _, fun h => absurd rfl h⟩

/-- The bucket index function returns at most one key, and one only for a
consumer of a bucket. -/
theorem indexByBucket_keys (r : KustomizationReconciler) (k : Kustomization) :
    ∃ b, indexByBucket r (.kustomization k) = .ok b ∧ b.length ≤ 1 ∧
      (b ≠ [] → k.Spec.SourceRef.Kind = BucketKind) := by
  by_cases hk : k.Spec.SourceRef.Kind = BucketKind
  · refine ⟨[(if k.Spec.SourceRef.Namespace ≠ "" then k.Spec.SourceRef.Namespace
      else k.GetNamespace) ++ "/" ++ k.Spec.SourceRef.Name], ?_, Nat.le_refl _, fun _ => hk⟩
    simp only [indexByBucket, hk, if_true]
  · exact ⟨[], (indexKey_other r k).2 hk, Nat.zero_le _, fun h => absurd rfl h⟩

/-- The repository handler returns normally on every repository. -/
theorem requestsForGitRepositoryRevisionChange_ok (r : KustomizationReconciler)
    (repo : GitRepository) :
    ∃ reqs, requestsForGitRepositoryRevisionChange r (.gitRepository repo) = .ok reqs := by
  simp only [requestsForGitRepositoryRevisionChange]
  split
  · exact ⟨_, rfl⟩
  · split
    · exact ⟨_, rfl⟩
    · split
      · exact ⟨_, rfl⟩
      · exact ⟨_, rfl⟩

/-- The bucket handler returns normally on every bucket. -/
theorem requestsForBucketRevisionChange_ok (r : KustomizationReconciler) (bucket : Bucket) :
    ∃ reqs, requestsForBucketRevisionChange r (.bucket bucket) = .ok reqs := by
  simp only [requestsForBucketRevisionChange]
  split
  · exact ⟨_, rfl⟩
  · split
    · exact ⟨_, rfl⟩
    · split
      · exact ⟨_, rfl⟩
      · exact ⟨_, rfl⟩

/-- The code resolves the namespace of section 4.1. -/
theorem effectiveNamespace_eq (k : Kustomization) :
    (if k.Spec.SourceRef.Namespace ≠ "" then k.Spec.SourceRef.Namespace else k.GetNamespace) =
      effectiveNamespace k := by
  unfold effectiveNamespace Kustomization.GetNamespace
  by_cases h : k.Spec.SourceRef.Namespace = "" <;> simp [h]

/-- The key of a consumer of a repository, by its effective namespace. -/
theorem indexByGitRepository_effective (r : KustomizationReconciler) (k : Kustomization)
    (hk : k.Spec.SourceRef.Kind = GitRepositoryKind) :
    indexByGitRepository r (.kustomization k) =
      .ok [effectiveNamespace k ++ "/" ++ k.Spec.SourceRef.Name] := by
  simp only [indexByGitRepository, hk, if_true, effectiveNamespace_eq]

/-- The key of a consumer of a bucket, by its effective namespace. -/
theorem indexByBucket_effective (r : KustomizationReconciler) (k : Kustomization)
    (hk : k.Spec.SourceRef.Kind = BucketKind) :
    indexByBucket r (.kustomization k) =
      .ok [effectiveNamespace k ++ "/" ++ k.Spec.SourceRef.Name] := by
  simp only [indexByBucket, hk, if_true, effectiveNamespace_eq]

/-- A list is cut at the first occurrence of a character in one way only. -/
theorem cut_unique (c : Char) : ∀ (a b x y : List Char), c ∉ a → c ∉ b →
    a ++ c :: x = b ++ c :: y → a = b ∧ x = y := by
  intro a
  induction a with
  | nil =>
    intro b x y _ hb h
    cases b with
    | nil => simp only [List.nil_append, List.cons.injEq, true_and] at h; exact ⟨rfl, h⟩
    | cons b0 bs =>
      simp only [List.nil_append, List.cons_append, List.cons.injEq] at h
      exact absurd (List.mem_cons.mpr (Or.inl h.1)) hb
  | cons a0 as ih =>
    intro b x y ha hb h
    cases b with
    | nil =>
      simp only [List.nil_append, List.cons_append, List.cons.injEq] at h
      exact absurd (List.mem_cons.mpr (Or.inl h.1.symm)) ha
    | cons b0 bs =>
      simp only [List.cons_append, List.cons.injEq] at h
      obtain ⟨hab, hxy⟩ := ih bs x y (fun hc => ha (List.mem_cons_of_mem _ hc))
        (fun hc => hb (List.mem_cons_of_mem _ hc)) h.2
      exact ⟨by rw [h.1, hab], hxy⟩

/-- Keys `<namespace>/<name>` with slash-free namespaces determine both parts. -/
theorem key_injective {ns1 n1 ns2 n2 : String} (h1 : '/' ∉ ns1.toList) (h2 : '/' ∉ ns2.toList)
    (h : ns1 ++ "/" ++ n1 = ns2 ++ "/" ++ n2) : ns1 = ns2 ∧ n1 = n2 := by
  have hd := congrArg String.data h
  simp only [String.data_append] at hd
  rw [List.append_assoc, List.append_assoc] at hd
  obtain ⟨ha, hb⟩ := cut_unique '/' ns1.data ns2.data n1.data n2.data h1 h2 hd
  exact ⟨String.ext ha, String.ext hb⟩

/-- A listing without pending consumers gives no request. -/
theorem requestsOf_of_pending_nil {rev : String} {items : List Kustomization}
    (h : pending rev items = []) : requestsOf rev items = [] := by
  simp only [requestsOf, h, List.map_nil]
  rfl

/-- After the requested consumers are marked, no consumer is pending. -/
theorem requestsOf_markAttempted (rev : String) (items : List Kustomization) :
    requestsOf rev (markAttempted rev (requestsOf rev items) items) = [] := by
  rcases requestsOf_perm_or_nil rev items with h0 | hp
  · have hid : markAttempted rev (requestsOf rev items) items = items := by
      rw [h0]
      simp [markAttempted]
    rw [hid, h0]
  · apply requestsOf_of_pending_nil
    rw [pending, List.filter_eq_nil_iff]
    intro k hk
    simp only [markAttempted, List.mem_map] at hk
    obtain ⟨k0, hk0, rfl⟩ := hk
    by_cases hmem : requestFor k0 ∈ requestsOf rev items
    · simp [hmem]
    · have hnp : k0 ∉ pending rev items := fun hpend =>
        hmem (hp.symm.subset (List.mem_map_of_mem _ hpend))
      have hcur : k0.Status.LastAttemptedRevision = rev := by
        by_contra hne
        exact hnp (mem_pending.mpr ⟨hk0, hne⟩)
      simp [hmem, hcur]

/-- The pipeline returns the same on every rearrangement of a listing. -/
theorem requestsOf_perm {rev : String} {items items2 : List Kustomization}
    (h : items.Perm items2) : requestsOf rev items = requestsOf rev items2 := by
  have hp : ((pending rev items).map Kustomization.GetDependsOn).Perm
      ((pending rev items2).map Kustomization.GetDependsOn) := (h.filter _).map _
  simp only [requestsOf, dependency.sort_perm hp]

end controllers

/-! ## The claims -/

namespace controllers

open kustomizev1 sourcev1

/-- C1: for a source with an artifact and a successful listing of consumers
with pairwise distinct (namespace, name), each handler returns a sequence that
holds no request for a listed consumer whose `Status.LastAttemptedRevision`
equals the revision of the artifact. -/
theorem current_consumer_not_requested (r : KustomizationReconciler) (artifact : Artifact)
    (list : KustomizationList) (hdist : DistinctNames list.Items)
    (k : Kustomization) (hk : k ∈ list.Items)
    (hcur : k.Status.LastAttemptedRevision = artifact.Revision) :
    (∀ repo : GitRepository, repo.GetArtifact = some artifact →
      r.List GitRepositoryIndexKey (ObjectKey (.gitRepository repo)).string = .ok list →
      ∃ reqs, requestsForGitRepositoryRevisionChange r (.gitRepository repo) = .ok reqs ∧
        requestFor k ∉ reqs) ∧
    (∀ bucket : Bucket, bucket.GetArtifact = some artifact →
      r.List BucketIndexKey (ObjectKey (.bucket bucket)).string = .ok list →
      ∃ reqs, requestsForBucketRevisionChange r (.bucket bucket) = .ok reqs ∧
        requestFor k ∉ reqs) := by
  constructor
  · intro repo ha hl
    exact ⟨_, requestsForGitRepositoryRevisionChange_eq r repo artifact list ha hl,
      requestsOf_not_current hdist hk hcur⟩
  · intro bucket ha hl
    exact ⟨_, requestsForBucketRevisionChange_eq r bucket artifact list ha hl,
      requestsOf_not_current hdist hk hcur⟩

/-- Witness of C1: with `app1` behind and `app2` at `rev-A`, neither handler
requests `app2`. -/
theorem current_consumer_not_requested_witness :
    (∃ reqs, requestsForGitRepositoryRevisionChange (cacheOf [app1, app2Current])
        (.gitRepository repo1) = .ok reqs ∧ requestFor app2Current ∉ reqs) ∧
    (∃ reqs, requestsForBucketRevisionChange (cacheOf [app1, app2Current])
        (.bucket bucket1) = .ok reqs ∧ requestFor app2Current ∉ reqs) :=
  have h := current_consumer_not_requested (cacheOf [app1, app2Current]) ⟨"rev-A"⟩
    ⟨[app1, app2Current]⟩ (by unfold DistinctNames; decide) app2Current (by decide) rfl
  ⟨h.1 repo1 rfl rfl, h.2 bucket1 rfl rfl⟩

/-- C2: for a source with an artifact and a successful listing of consumers
with pairwise distinct (namespace, name) whose dependency graph has no cycle,
each handler returns a sequence in which every listed consumer whose
`Status.LastAttemptedRevision` differs from the revision of the artifact is
requested exactly once, and which has as many requests as there are such
consumers. -/
theorem pending_consumer_requested_once (r : KustomizationReconciler) (artifact : Artifact)
    (list : KustomizationList) (hdist : DistinctNames list.Items)
    (hacyclic : ¬ HasDependencyCycle list.Items) :
    (∀ repo : GitRepository, repo.GetArtifact = some artifact →
      r.List GitRepositoryIndexKey (ObjectKey (.gitRepository repo)).string = .ok list →
      ∃ reqs, requestsForGitRepositoryRevisionChange r (.gitRepository repo) = .ok reqs ∧
        (∀ k ∈ list.Items, k.Status.LastAttemptedRevision ≠ artifact.Revision →
          reqs.count (requestFor k) = 1) ∧
        reqs.length = (list.Items.filter fun k =>
          k.Status.LastAttemptedRevision ≠ artifact.Revision).length) ∧
    (∀ bucket : Bucket, bucket.GetArtifact = some artifact →
      r.List BucketIndexKey (ObjectKey (.bucket bucket)).string = .ok list →
      ∃ reqs, requestsForBucketRevisionChange r (.bucket bucket) = .ok reqs ∧
        (∀ k ∈ list.Items, k.Status.LastAttemptedRevision ≠ artifact.Revision →
          reqs.count (requestFor k) = 1) ∧
        reqs.length = (list.Items.filter fun k =>
          k.Status.LastAttemptedRevision ≠ artifact.Revision).length) := by
  constructor
  · intro repo ha hl
    exact ⟨_, requestsForGitRepositoryRevisionChange_eq r repo artifact list ha hl,
      requestsOf_once hdist hacyclic⟩
  · intro bucket ha hl
    exact ⟨_, requestsForBucketRevisionChange_eq r bucket artifact list ha hl,
      requestsOf_once hdist hacyclic⟩

/-- Witness of C2: with `app1` and `app2` behind and `app2` depending on
`app1`, each handler requests both, each once. -/
theorem pending_consumer_requested_once_witness :
    (∃ reqs, requestsForGitRepositoryRevisionChange (cacheOf [app2, app1])
        (.gitRepository repo1) = .ok reqs ∧
      (∀ k ∈ [app2, app1], k.Status.LastAttemptedRevision ≠ "rev-A" →
        reqs.count (requestFor k) = 1) ∧
      reqs.length = ([app2, app1].filter fun k =>
        k.Status.LastAttemptedRevision ≠ "rev-A").length) ∧
    (∃ reqs, requestsForBucketRevisionChange (cacheOf [app2, app1])
        (.bucket bucket1) = .ok reqs ∧
      (∀ k ∈ [app2, app1], k.Status.LastAttemptedRevision ≠ "rev-A" →
        reqs.count (requestFor k) = 1) ∧
      reqs.length = ([app2, app1].filter fun k =>
        k.Status.LastAttemptedRevision ≠ "rev-A").length) :=
  have h := pending_consumer_requested_once (cacheOf [app2, app1]) ⟨"rev-A"⟩
    ⟨[app2, app1]⟩ (by unfold DistinctNames; decide)
    (@dependency.not_hasCycle_of_sort_ok _ [⟨"ns", "app1"⟩, ⟨"ns", "app2"⟩] rfl)
  ⟨h.1 repo1 rfl rfl, h.2 bucket1 rfl rfl⟩

/-- C3: for a source with an artifact and a successful listing of consumers
with pairwise distinct (namespace, name), the sequence each handler returns
respects the declared dependencies: when a listed consumer B declares A and
the requests for both are in the sequence, the request for A stands at a
smaller index than the request for B. This holds for every such listing, so in
particular for those with an acyclic dependency graph. -/
theorem requests_respect_dependencies (r : KustomizationReconciler) (artifact : Artifact)
    (list : KustomizationList) (hdist : DistinctNames list.Items)
    (kB : Kustomization) (hB : kB ∈ list.Items)
    (a : dependency.CrossNamespaceDependencyReference) (ha : a ∈ kB.Spec.DependsOn) :
    (∀ repo : GitRepository, repo.GetArtifact = some artifact →
      r.List GitRepositoryIndexKey (ObjectKey (.gitRepository repo)).string = .ok list →
      ∃ reqs, requestsForGitRepositoryRevisionChange r (.gitRepository repo) = .ok reqs ∧
        ∀ i j : Nat, reqs[i]? = some (requestFor kB) →
          reqs[j]? = some ⟨⟨a.Namespace, a.Name⟩⟩ → j < i) ∧
    (∀ bucket : Bucket, bucket.GetArtifact = some artifact →
      r.List BucketIndexKey (ObjectKey (.bucket bucket)).string = .ok list →
      ∃ reqs, requestsForBucketRevisionChange r (.bucket bucket) = .ok reqs ∧
        ∀ i j : Nat, reqs[i]? = some (requestFor kB) →
          reqs[j]? = some ⟨⟨a.Namespace, a.Name⟩⟩ → j < i) := by
  constructor
  · intro repo hart hl
    exact ⟨_, requestsForGitRepositoryRevisionChange_eq r repo artifact list hart hl,
      fun i j hi hj => requestsOf_ordered hdist hB ha hi hj⟩
  · intro bucket hart hl
    exact ⟨_, requestsForBucketRevisionChange_eq r bucket artifact list hart hl,
      fun i j hi hj => requestsOf_ordered hdist hB ha hi hj⟩

/-- Witness of C3: `app1` and `app2` both at `rev-0`, `app2` depending on
`app1`, listed as `app2, app1`, and the source at `rev-A`: each handler returns
`[app1, app2]`, the request for `app1` before the request for `app2`. -/
theorem requests_respect_dependencies_witness :
    (requestsForGitRepositoryRevisionChange (cacheOf [app2, app1]) (.gitRepository repo1) =
        .ok [requestFor app1, requestFor app2] ∧
      requestsForBucketRevisionChange (cacheOf [app2, app1]) (.bucket bucket1) =
        .ok [requestFor app1, requestFor app2]) ∧
    (∃ reqs, requestsForGitRepositoryRevisionChange (cacheOf [app2, app1])
        (.gitRepository repo1) = .ok reqs ∧
      ∀ i j : Nat, reqs[i]? = some (requestFor app2) →
        reqs[j]? = some ⟨⟨"ns", "app1"⟩⟩ → j < i) ∧
    (∃ reqs, requestsForBucketRevisionChange (cacheOf [app2, app1])
        (.bucket bucket1) = .ok reqs ∧
      ∀ i j : Nat, reqs[i]? = some (requestFor app2) →
        reqs[j]? = some ⟨⟨"ns", "app1"⟩⟩ → j < i) :=
  have h := requests_respect_dependencies (cacheOf [app2, app1]) ⟨"rev-A"⟩
    ⟨[app2, app1]⟩ (by unfold DistinctNames; decide) app2 (by decide) ⟨"ns", "app1"⟩
    (by decide)
  ⟨⟨rfl, rfl⟩, h.1 repo1 rfl rfl, h.2 bucket1 rfl rfl⟩

/-- Counterexample to C4: the listing `app1` (behind, depending on `app2`) and
`app2` (at `rev-A`, depending on `app1`) contains a dependency cycle, and each
handler returns the request for `app1`, not an empty sequence. -/
theorem cycle_through_current_consumer_is_requested :
    HasDependencyCycle [app1OnApp2, app2Current] ∧
    requestsForGitRepositoryRevisionChange (cacheOf [app1OnApp2, app2Current])
        (.gitRepository repo1) = .ok [requestFor app1OnApp2] ∧
    requestsForBucketRevisionChange (cacheOf [app1OnApp2, app2Current])
        (.bucket bucket1) = .ok [requestFor app1OnApp2] ∧
    requestsForGitRepositoryRevisionChange (cacheOf [app1OnApp2, app2Current])
        (.gitRepository repo1) ≠ .ok [] ∧
    requestsForBucketRevisionChange (cacheOf [app1OnApp2, app2Current])
        (.bucket bucket1) ≠ .ok [] := by
  refine ⟨?_, rfl, rfl, ?_, ?_⟩
  · refine ⟨⟨"ns", "app1"⟩, Relation.TransGen.tail (b := ⟨"ns", "app2"⟩)
      (Relation.TransGen.single ?_) ?_⟩
    · exact ⟨app1OnApp2.GetDependsOn, by decide, rfl, by decide,
        app2Current.GetDependsOn, by decide, rfl⟩
    · exact ⟨app2Current.GetDependsOn, by decide, rfl, by decide,
        app1OnApp2.GetDependsOn, by decide, rfl⟩
  · intro h; cases h
  · intro h; cases h

/-- C4, amended: for a source with an artifact and a successful listing in which
the consumers whose `Status.LastAttemptedRevision` differs from the revision
of the artifact contain a dependency cycle, each handler returns an empty
sequence. -/
theorem cycle_among_pending_gives_no_requests (r : KustomizationReconciler)
    (artifact : Artifact) (list : KustomizationList)
    (hcycle : HasDependencyCycle (list.Items.filter fun k =>
      k.Status.LastAttemptedRevision ≠ artifact.Revision)) :
    (∀ repo : GitRepository, repo.GetArtifact = some artifact →
      r.List GitRepositoryIndexKey (ObjectKey (.gitRepository repo)).string = .ok list →
      requestsForGitRepositoryRevisionChange r (.gitRepository repo) = .ok []) ∧
    (∀ bucket : Bucket, bucket.GetArtifact = some artifact →
      r.List BucketIndexKey (ObjectKey (.bucket bucket)).string = .ok list →
      requestsForBucketRevisionChange r (.bucket bucket) = .ok []) := by
  rw [← pending_eq_filter] at hcycle
  constructor
  · intro repo ha hl
    rw [requestsForGitRepositoryRevisionChange_eq r repo artifact list ha hl,
      requestsOf_cycle hcycle]
  · intro bucket ha hl
    rw [requestsForBucketRevisionChange_eq r bucket artifact list ha hl,
      requestsOf_cycle hcycle]

/-- Witness of C4, amended: `app1` and `app2` both behind and depending on each
other give no request. -/
theorem cycle_among_pending_gives_no_requests_witness :
    requestsForGitRepositoryRevisionChange (cacheOf [app1OnApp2, app2])
        (.gitRepository repo1) = .ok [] ∧
    requestsForBucketRevisionChange (cacheOf [app1OnApp2, app2]) (.bucket bucket1) = .ok [] :=
  have hc : HasDependencyCycle ([app1OnApp2, app2].filter fun k =>
      k.Status.LastAttemptedRevision ≠ "rev-A") :=
    ⟨⟨"ns", "app1"⟩, Relation.TransGen.tail (b := ⟨"ns", "app2"⟩)
      (Relation.TransGen.single
        ⟨app1OnApp2.GetDependsOn, by decide, rfl, by decide, app2.GetDependsOn, by decide, rfl⟩)
      ⟨app2.GetDependsOn, by decide, rfl, by decide, app1OnApp2.GetDependsOn, by decide, rfl⟩⟩
  have h := cycle_among_pending_gives_no_requests (cacheOf [app1OnApp2, app2]) ⟨"rev-A"⟩
    ⟨[app1OnApp2, app2]⟩ hc
  ⟨h.1 repo1 rfl rfl, h.2 bucket1 rfl rfl⟩

/-- C5: for a source of the expected type without an artifact each handler
returns an empty sequence, whatever the cache would answer. -/
theorem no_artifact_no_requests (r : KustomizationReconciler) :
    (∀ repo : GitRepository, repo.GetArtifact = none →
      requestsForGitRepositoryRevisionChange r (.gitRepository repo) = .ok []) ∧
    (∀ bucket : Bucket, bucket.GetArtifact = none →
      requestsForBucketRevisionChange r (.bucket bucket) = .ok []) := by
  constructor
  · intro repo h
    simp only [requestsForGitRepositoryRevisionChange, h]
  · intro bucket h
    simp only [requestsForBucketRevisionChange, h]

/-- Witness of C5: a source without an artifact, over a cache that lists two
consumers behind and over a cache that fails. -/
theorem no_artifact_no_requests_witness :
    (requestsForGitRepositoryRevisionChange (cacheOf [app1, app2])
        (.gitRepository repoWithoutArtifact) = .ok [] ∧
      requestsForBucketRevisionChange (cacheOf [app1, app2])
        (.bucket bucketWithoutArtifact) = .ok []) ∧
    (requestsForGitRepositoryRevisionChange brokenCache
        (.gitRepository repoWithoutArtifact) = .ok [] ∧
      requestsForBucketRevisionChange brokenCache
        (.bucket bucketWithoutArtifact) = .ok []) :=
  ⟨⟨(no_artifact_no_requests (cacheOf [app1, app2])).1 repoWithoutArtifact rfl,
      (no_artifact_no_requests (cacheOf [app1, app2])).2 bucketWithoutArtifact rfl⟩,
    ⟨(no_artifact_no_requests brokenCache).1 repoWithoutArtifact rfl,
      (no_artifact_no_requests brokenCache).2 bucketWithoutArtifact rfl⟩⟩

/-- C6: for a source with an artifact, when the cache query fails each handler
returns an empty sequence: a normal return, not an abort, and the error is not
part of the result. -/
theorem listing_failure_no_requests (r : KustomizationReconciler) (artifact : Artifact)
    (e : Error) :
    (∀ repo : GitRepository, repo.GetArtifact = some artifact →
      r.List GitRepositoryIndexKey (ObjectKey (.gitRepository repo)).string = .error e →
      requestsForGitRepositoryRevisionChange r (.gitRepository repo) = .ok []) ∧
    (∀ bucket : Bucket, bucket.GetArtifact = some artifact →
      r.List BucketIndexKey (ObjectKey (.bucket bucket)).string = .error e →
      requestsForBucketRevisionChange r (.bucket bucket) = .ok []) := by
  constructor
  · intro repo ha hl
    simp only [requestsForGitRepositoryRevisionChange, ha, hl]
  · intro bucket ha hl
    simp only [requestsForBucketRevisionChange, ha, hl]

/-- Witness of C6: the sources at `rev-A` over a cache that fails. -/
theorem listing_failure_no_requests_witness :
    requestsForGitRepositoryRevisionChange brokenCache (.gitRepository repo1) = .ok [] ∧
    requestsForBucketRevisionChange brokenCache (.bucket bucket1) = .ok [] :=
  have h := listing_failure_no_requests brokenCache ⟨"rev-A"⟩ ⟨"the cache is not started"⟩
  ⟨h.1 repo1 rfl rfl, h.2 bucket1 rfl rfl⟩

/-- C7: for a consumer whose `Spec.SourceRef.Kind` is the kind of the index, the
index function returns exactly one key, `<namespace>/<name>`, where the name is
`Spec.SourceRef.Name` and the namespace is `Spec.SourceRef.Namespace` when that
is non-empty and the namespace of the consumer otherwise. -/
theorem index_key_of_matching_kind (r : KustomizationReconciler) (k : Kustomization) :
    (k.Spec.SourceRef.Kind = GitRepositoryKind →
      (k.Spec.SourceRef.Namespace ≠ "" → indexByGitRepository r (.kustomization k) =
        .ok [k.Spec.SourceRef.Namespace ++ "/" ++ k.Spec.SourceRef.Name]) ∧
      (k.Spec.SourceRef.Namespace = "" → indexByGitRepository r (.kustomization k) =
        .ok [k.Namespace ++ "/" ++ k.Spec.SourceRef.Name])) ∧
    (k.Spec.SourceRef.Kind = BucketKind →
      (k.Spec.SourceRef.Namespace ≠ "" → indexByBucket r (.kustomization k) =
        .ok [k.Spec.SourceRef.Namespace ++ "/" ++ k.Spec.SourceRef.Name]) ∧
      (k.Spec.SourceRef.Namespace = "" → indexByBucket r (.kustomization k) =
        .ok [k.Namespace ++ "/" ++ k.Spec.SourceRef.Name])) := by
  constructor
  · intro hk
    constructor
    · intro hn
      simp only [indexByGitRepository, hk, if_true, ne_eq, hn, not_false_eq_true]
    · intro hn
      simp only [indexByGitRepository, hk, if_true, ne_eq, hn, not_true_eq_false, if_false,
        Kustomization.GetNamespace]
  · intro hk
    constructor
    · intro hn
      simp only [indexByBucket, hk, if_true, ne_eq, hn, not_false_eq_true]
    · intro hn
      simp only [indexByBucket, hk, if_true, ne_eq, hn, not_true_eq_false, if_false,
        Kustomization.GetNamespace]

/-- Witness of C7: `app1` refers to the repository `repo1` without a namespace
and is indexed under `ns/repo1`; `bucketConsumer` refers to the bucket
`bucket1` in `infra` and is indexed under `infra/bucket1`. -/
theorem index_key_of_matching_kind_witness :
    indexByGitRepository (cacheOf []) (.kustomization app1) = .ok ["ns/repo1"] ∧
    indexByBucket (cacheOf []) (.kustomization bucketConsumer) = .ok ["infra/bucket1"] :=
  ⟨((index_key_of_matching_kind (cacheOf []) app1).1 rfl).2 rfl,
    ((index_key_of_matching_kind (cacheOf []) bucketConsumer).2 rfl).1 (by decide)⟩

/-- C8: for a consumer whose `Spec.SourceRef.Kind` is not the kind of the index,
the index function returns no key, whatever the namespace and name of the
reference are. -/
theorem no_index_key_of_other_kind (r : KustomizationReconciler) (k : Kustomization) :
    (k.Spec.SourceRef.Kind ≠ GitRepositoryKind →
      indexByGitRepository r (.kustomization k) = .ok []) ∧
    (k.Spec.SourceRef.Kind ≠ BucketKind →
      indexByBucket r (.kustomization k) = .ok []) := by
  constructor
  · intro hk
    simp only [indexByGitRepository, hk, if_false]
  · intro hk
    simp only [indexByBucket, hk, if_false]

/-- Witness of C8: `bucketConsumerOfRepo1` refers to a bucket whose namespace
and name are those of the repository `ns/repo1`, and has no key in the
repository index; `app1` refers to a repository and has no key in the bucket
index. -/
theorem no_index_key_of_other_kind_witness :
    indexByGitRepository (cacheOf []) (.kustomization bucketConsumerOfRepo1) = .ok [] ∧
    indexByBucket (cacheOf []) (.kustomization app1) = .ok [] :=
  ⟨(no_index_key_of_other_kind (cacheOf []) bucketConsumerOfRepo1).1 (by decide),
    (no_index_key_of_other_kind (cacheOf []) app1).2 (by decide)⟩

/-- Counterexample to C9: `bucketConsumerOfRepo1` has its source namespace
unset and a kind that is not the kind of the repository index; the repository
index function derives no key for it, so it does not resolve to the key of its
own namespace, `ns/repo1`. -/
theorem namespace_not_resolved_on_kind_mismatch :
    bucketConsumerOfRepo1.Spec.SourceRef.Namespace = "" ∧
    bucketConsumerOfRepo1.Spec.SourceRef.Kind ≠ GitRepositoryKind ∧
    indexByGitRepository (cacheOf []) (.kustomization bucketConsumerOfRepo1) = .ok [] ∧
    indexByGitRepository (cacheOf []) (.kustomization bucketConsumerOfRepo1) ≠
      .ok [bucketConsumerOfRepo1.Namespace ++ "/" ++
        bucketConsumerOfRepo1.Spec.SourceRef.Name] := by
  refine ⟨rfl, by decide, rfl, ?_⟩
  intro h
  cases h

/-- C9, amended: for either index function and every consumer, each key the
function returns is built from the namespace of the consumer when
`Spec.SourceRef.Namespace` is unset and from `Spec.SourceRef.Namespace` when it
is set, the same rule for both kinds; a key is returned only when
`Spec.SourceRef.Kind` is the kind of the index. -/
theorem returned_key_uses_effective_namespace (r : KustomizationReconciler)
    (k : Kustomization) (key : String) :
    (indexByGitRepository r (.kustomization k) = .ok [key] →
      k.Spec.SourceRef.Kind = GitRepositoryKind ∧
      (k.Spec.SourceRef.Namespace = "" → key = k.Namespace ++ "/" ++ k.Spec.SourceRef.Name) ∧
      (k.Spec.SourceRef.Namespace ≠ "" →
        key = k.Spec.SourceRef.Namespace ++ "/" ++ k.Spec.SourceRef.Name)) ∧
    (indexByBucket r (.kustomization k) = .ok [key] →
      k.Spec.SourceRef.Kind = BucketKind ∧
      (k.Spec.SourceRef.Namespace = "" → key = k.Namespace ++ "/" ++ k.Spec.SourceRef.Name) ∧
      (k.Spec.SourceRef.Namespace ≠ "" →
        key = k.Spec.SourceRef.Namespace ++ "/" ++ k.Spec.SourceRef.Name)) := by
  constructor
  · intro h
    by_cases hk : k.Spec.SourceRef.Kind = GitRepositoryKind
    · refine ⟨hk, ?_, ?_⟩
      · intro hn
        rw [((indexKey_matching r k).1 hk).2 hn] at h
        simp only [Except.ok.injEq, List.cons.injEq, and_true] at h
        exact h.symm
      · intro hn
        rw [((indexKey_matching r k).1 hk).1 hn] at h
        simp only [Except.ok.injEq, List.cons.injEq, and_true] at h
        exact h.symm
    · rw [(indexKey_other r k).1 hk] at h
      simp at h
  · intro h
    by_cases hk : k.Spec.SourceRef.Kind = BucketKind
    · refine ⟨hk, ?_, ?_⟩
      · intro hn
        rw [((indexKey_matching r k).2 hk).2 hn] at h
        simp only [Except.ok.injEq, List.cons.injEq, and_true] at h
        exact h.symm
      · intro hn
        rw [((indexKey_matching r k).2 hk).1 hn] at h
        simp only [Except.ok.injEq, List.cons.injEq, and_true] at h
        exact h.symm
    · rw [(indexKey_other r k).2 hk] at h
      simp at h

/-- Witness of C9, amended: the key `ns/repo1` of `app1` in the repository
index and the key `infra/bucket1` of `bucketConsumer` in the bucket index. -/
theorem returned_key_uses_effective_namespace_witness :
    (app1.Spec.SourceRef.Kind = GitRepositoryKind ∧
      (app1.Spec.SourceRef.Namespace = "" →
        "ns/repo1" = app1.Namespace ++ "/" ++ app1.Spec.SourceRef.Name) ∧
      (app1.Spec.SourceRef.Namespace ≠ "" →
        "ns/repo1" = app1.Spec.SourceRef.Namespace ++ "/" ++ app1.Spec.SourceRef.Name)) ∧
    (bucketConsumer.Spec.SourceRef.Kind = BucketKind ∧
      (bucketConsumer.Spec.SourceRef.Namespace = "" →
        "infra/bucket1" = bucketConsumer.Namespace ++ "/" ++
          bucketConsumer.Spec.SourceRef.Name) ∧
      (bucketConsumer.Spec.SourceRef.Namespace ≠ "" →
        "infra/bucket1" = bucketConsumer.Spec.SourceRef.Namespace ++ "/" ++
          bucketConsumer.Spec.SourceRef.Name)) :=
  ⟨(returned_key_uses_effective_namespace (cacheOf []) app1 "ns/repo1").1 rfl,
    (returned_key_uses_effective_namespace (cacheOf []) bucketConsumer "infra/bucket1").2 rfl⟩

/-- C10: for every consumer each index function returns at most one key, and at
most one of the two returns a key. -/
theorem at_most_one_index_holds_consumer (r : KustomizationReconciler) (k : Kustomization) :
    ∃ g b : List String,
      indexByGitRepository r (.kustomization k) = .ok g ∧
      indexByBucket r (.kustomization k) = .ok b ∧
      g.length ≤ 1 ∧ b.length ≤ 1 ∧ (g = [] ∨ b = []) := by
  obtain ⟨g, hg, hgl, hgk⟩ := indexByGitRepository_keys r k
  obtain ⟨b, hb, hbl, hbk⟩ := indexByBucket_keys r k
  refine ⟨g, b, hg, hb, hgl, hbl, ?_⟩
  by_cases hgn : g = []
  · exact Or.inl hgn
  · right
    by_contra hbn
    have h1 := hgk hgn
    have h2 := hbk hbn
    rw [h1] at h2
    revert h2
    decide

/-- Counterexample to C13: the nil pointers to a repository, to a bucket and to
a consumer are objects of the expected type of the four functions (they pass
the type assertion and print the type of a pointer that is not nil), and each
function aborts on its nil pointer. -/
theorem nil_pointer_of_expected_type_aborts :
    (Object.nilGitRepository.isGitRepository = true ∧
      Object.nilGitRepository.typeName = (Object.gitRepository repo1).typeName ∧
      ∃ p, requestsForGitRepositoryRevisionChange (cacheOf [app1]) .nilGitRepository =
        .error p) ∧
    (Object.nilBucket.isBucket = true ∧
      Object.nilBucket.typeName = (Object.bucket bucket1).typeName ∧
      ∃ p, requestsForBucketRevisionChange (cacheOf [app1]) .nilBucket = .error p) ∧
    (Object.nilKustomization.isKustomization = true ∧
      Object.nilKustomization.typeName = (Object.kustomization app1).typeName ∧
      (∃ p, indexByGitRepository (cacheOf []) .nilKustomization = .error p) ∧
      ∃ p, indexByBucket (cacheOf []) .nilKustomization = .error p) :=
  ⟨⟨rfl, rfl, _, rfl⟩, ⟨rfl, rfl, _, rfl⟩, ⟨rfl, rfl, ⟨_, rfl⟩, ⟨_, rfl⟩⟩⟩

/-- C13, amended: each of the four functions aborts with its type assertion
(the panic `Expected ...`) exactly when the object it is handed is not of its
expected type (a repository for `requestsForGitRepositoryRevisionChange`, a
bucket for `requestsForBucketRevisionChange`, a consumer for the two index
functions); on an object of the expected type that is not a nil pointer it does
not abort and returns a result; on the nil pointer of the expected type it
passes the assertion and aborts on the dereference. -/
theorem panic_iff_unexpected_type_or_nil (r : KustomizationReconciler) (obj : Object) :
    ((requestsForGitRepositoryRevisionChange r obj =
          .error ⟨"Expected a GitRepository but got a " ++ obj.typeName⟩ ↔
        obj.isGitRepository = false) ∧
      ((∃ repo, obj = .gitRepository repo) →
        ∃ reqs, requestsForGitRepositoryRevisionChange r obj = .ok reqs) ∧
      (obj = .nilGitRepository →
        requestsForGitRepositoryRevisionChange r obj = .error nilDereference)) ∧
    ((requestsForBucketRevisionChange r obj =
          .error ⟨"Expected a Bucket but got a " ++ obj.typeName⟩ ↔
        obj.isBucket = false) ∧
      ((∃ bucket, obj = .bucket bucket) →
        ∃ reqs, requestsForBucketRevisionChange r obj = .ok reqs) ∧
      (obj = .nilBucket → requestsForBucketRevisionChange r obj = .error nilDereference)) ∧
    ((indexByGitRepository r obj = .error ⟨"Expected a Kustomization, got " ++ obj.typeName⟩ ↔
        obj.isKustomization = false) ∧
      ((∃ k, obj = .kustomization k) → ∃ keys, indexByGitRepository r obj = .ok keys) ∧
      (obj = .nilKustomization → indexByGitRepository r obj = .error nilDereference)) ∧
    ((indexByBucket r obj = .error ⟨"Expected a Kustomization, got " ++ obj.typeName⟩ ↔
        obj.isKustomization = false) ∧
      ((∃ k, obj = .kustomization k) → ∃ keys, indexByBucket r obj = .ok keys) ∧
      (obj = .nilKustomization → indexByBucket r obj = .error nilDereference)) := by
  refine ⟨⟨?_, ?_, ?_⟩, ⟨?_, ?_, ?_⟩, ⟨?_, ?_, ?_⟩, ⟨?_, ?_, ?_⟩⟩
  · cases obj with
    | gitRepository repo =>
      obtain ⟨reqs, h⟩ := requestsForGitRepositoryRevisionChange_ok r repo
      simp [h, Object.isGitRepository]
    | nilGitRepository =>
      simp only [requestsForGitRepositoryRevisionChange, Object.isGitRepository, Except.error.injEq]
      constructor
      · intro h
        revert h
        decide
      · intro h
        cases h
    | bucket b => simp [requestsForGitRepositoryRevisionChange, Object.isGitRepository]
    | kustomization k => simp [requestsForGitRepositoryRevisionChange, Object.isGitRepository]
    | nilBucket => simp [requestsForGitRepositoryRevisionChange, Object.isGitRepository]
    | nilKustomization =>
      simp [requestsForGitRepositoryRevisionChange, Object.isGitRepository]
    | other t ns n => simp [requestsForGitRepositoryRevisionChange, Object.isGitRepository]
  · rintro ⟨repo, rfl⟩
    exact requestsForGitRepositoryRevisionChange_ok r repo
  · rintro rfl
    rfl
  · cases obj with
    | bucket b =>
      obtain ⟨reqs, h⟩ := requestsForBucketRevisionChange_ok r b
      simp [h, Object.isBucket]
    | nilBucket =>
      simp only [requestsForBucketRevisionChange, Object.isBucket, Except.error.injEq]
      constructor
      · intro h
        revert h
        decide
      · intro h
        cases h
    | gitRepository repo => simp [requestsForBucketRevisionChange, Object.isBucket]
    | kustomization k => simp [requestsForBucketRevisionChange, Object.isBucket]
    | nilGitRepository => simp [requestsForBucketRevisionChange, Object.isBucket]
    | nilKustomization => simp [requestsForBucketRevisionChange, Object.isBucket]
    | other t ns n => simp [requestsForBucketRevisionChange, Object.isBucket]
  · rintro ⟨bucket, rfl⟩
    exact requestsForBucketRevisionChange_ok r bucket
  · rintro rfl
    rfl
  · cases obj with
    | kustomization k =>
      obtain ⟨g, h, -⟩ := indexByGitRepository_keys r k
      simp [h, Object.isKustomization]
    | nilKustomization =>
      simp only [indexByGitRepository, Object.isKustomization, Except.error.injEq]
      constructor
      · intro h
        revert h
        decide
      · intro h
        cases h
    | gitRepository repo => simp [indexByGitRepository, Object.isKustomization]
    | bucket b => simp [indexByGitRepository, Object.isKustomization]
    | nilGitRepository => simp [indexByGitRepository, Object.isKustomization]
    | nilBucket => simp [indexByGitRepository, Object.isKustomization]
    | other t ns n => simp [indexByGitRepository, Object.isKustomization]
  · rintro ⟨k, rfl⟩
    obtain ⟨g, h, -⟩ := indexByGitRepository_keys r k
    exact ⟨g, h⟩
  · rintro rfl
    rfl
  · cases obj with
    | kustomization k =>
      obtain ⟨g, h, -⟩ := indexByBucket_keys r k
      simp [h, Object.isKustomization]
    | nilKustomization =>
      simp only [indexByBucket, Object.isKustomization, Except.error.injEq]
      constructor
      · intro h
        revert h
        decide
      · intro h
        cases h
    | gitRepository repo => simp [indexByBucket, Object.isKustomization]
    | bucket b => simp [indexByBucket, Object.isKustomization]
    | nilGitRepository => simp [indexByBucket, Object.isKustomization]
    | nilBucket => simp [indexByBucket, Object.isKustomization]
    | other t ns n => simp [indexByBucket, Object.isKustomization]
  · rintro ⟨k, rfl⟩
    obtain ⟨g, h, -⟩ := indexByBucket_keys r k
    exact ⟨g, h⟩
  · rintro rfl
    rfl

/-- Witness of C13, amended: each function returns on an object of its type that
is not nil, aborts with its assertion on an object of another type, and aborts
on the dereference of the nil pointer of its type. -/
theorem panic_iff_unexpected_type_or_nil_witness :
    ((∃ reqs, requestsForGitRepositoryRevisionChange (cacheOf [app1])
        (.gitRepository repo1) = .ok reqs) ∧
      (∃ reqs, requestsForBucketRevisionChange (cacheOf [app1]) (.bucket bucket1) = .ok reqs) ∧
      (∃ keys, indexByGitRepository (cacheOf []) (.kustomization app1) = .ok keys) ∧
      (∃ keys, indexByBucket (cacheOf []) (.kustomization app1) = .ok keys)) ∧
    (requestsForGitRepositoryRevisionChange (cacheOf [app1]) (.bucket bucket1) =
        .error ⟨"Expected a GitRepository but got a " ++ (Object.bucket bucket1).typeName⟩ ∧
      requestsForBucketRevisionChange (cacheOf [app1]) (.gitRepository repo1) =
        .error ⟨"Expected a Bucket but got a " ++ (Object.gitRepository repo1).typeName⟩ ∧
      indexByGitRepository (cacheOf []) configMap =
        .error ⟨"Expected a Kustomization, got " ++ configMap.typeName⟩ ∧
      indexByBucket (cacheOf []) .nilBucket =
        .error ⟨"Expected a Kustomization, got " ++ Object.nilBucket.typeName⟩) ∧
    (requestsForGitRepositoryRevisionChange (cacheOf [app1]) .nilGitRepository =
        .error nilDereference ∧
      requestsForBucketRevisionChange (cacheOf [app1]) .nilBucket = .error nilDereference ∧
      indexByGitRepository (cacheOf []) .nilKustomization = .error nilDereference ∧
      indexByBucket (cacheOf []) .nilKustomization = .error nilDereference) :=
  ⟨⟨(panic_iff_unexpected_type_or_nil (cacheOf [app1]) (.gitRepository repo1)).1.2.1
        ⟨repo1, rfl⟩,
      (panic_iff_unexpected_type_or_nil (cacheOf [app1]) (.bucket bucket1)).2.1.2.1
        ⟨bucket1, rfl⟩,
      (panic_iff_unexpected_type_or_nil (cacheOf []) (.kustomization app1)).2.2.1.2.1
        ⟨app1, rfl⟩,
      (panic_iff_unexpected_type_or_nil (cacheOf []) (.kustomization app1)).2.2.2.2.1
        ⟨app1, rfl⟩⟩,
    ⟨(panic_iff_unexpected_type_or_nil (cacheOf [app1]) (.bucket bucket1)).1.1.mpr rfl,
      (panic_iff_unexpected_type_or_nil (cacheOf [app1]) (.gitRepository repo1)).2.1.1.mpr rfl,
      (panic_iff_unexpected_type_or_nil (cacheOf []) configMap).2.2.1.1.mpr rfl,
      (panic_iff_unexpected_type_or_nil (cacheOf []) .nilBucket).2.2.2.1.mpr rfl⟩,
    ⟨(panic_iff_unexpected_type_or_nil (cacheOf [app1]) .nilGitRepository).1.2.2 rfl,
      (panic_iff_unexpected_type_or_nil (cacheOf [app1]) .nilBucket).2.1.2.2 rfl,
      (panic_iff_unexpected_type_or_nil (cacheOf []) .nilKustomization).2.2.1.2.2 rfl,
      (panic_iff_unexpected_type_or_nil (cacheOf []) .nilKustomization).2.2.2.2.2 rfl⟩⟩

/-- C11: repeated delivery is safe. For a source with an artifact and a
successful listing, when every consumer named in the result of a first call has
`Status.LastAttemptedRevision` set to the revision of the artifact and all else
is unchanged, a second call of the same handler for the same source returns an
empty sequence; and when the listing is unchanged, a second call returns the
sequence of the first. The second listing holds the same consumers; the cache
may answer with them in any order. -/
theorem repeated_delivery_is_safe (r : KustomizationReconciler) (artifact : Artifact)
    (list : KustomizationList) :
    (∀ repo : GitRepository, repo.GetArtifact = some artifact →
      r.List GitRepositoryIndexKey (ObjectKey (.gitRepository repo)).string = .ok list →
      ∃ reqs, requestsForGitRepositoryRevisionChange r (.gitRepository repo) = .ok reqs ∧
        (∀ (r2 : KustomizationReconciler) (list2 : KustomizationList),
          list2.Items.Perm (markAttempted artifact.Revision reqs list.Items) →
          r2.List GitRepositoryIndexKey (ObjectKey (.gitRepository repo)).string = .ok list2 →
          requestsForGitRepositoryRevisionChange r2 (.gitRepository repo) = .ok []) ∧
        (∀ (r2 : KustomizationReconciler) (list2 : KustomizationList),
          list2.Items.Perm list.Items →
          r2.List GitRepositoryIndexKey (ObjectKey (.gitRepository repo)).string = .ok list2 →
          requestsForGitRepositoryRevisionChange r2 (.gitRepository repo) = .ok reqs)) ∧
    (∀ bucket : Bucket, bucket.GetArtifact = some artifact →
      r.List BucketIndexKey (ObjectKey (.bucket bucket)).string = .ok list →
      ∃ reqs, requestsForBucketRevisionChange r (.bucket bucket) = .ok reqs ∧
        (∀ (r2 : KustomizationReconciler) (list2 : KustomizationList),
          list2.Items.Perm (markAttempted artifact.Revision reqs list.Items) →
          r2.List BucketIndexKey (ObjectKey (.bucket bucket)).string = .ok list2 →
          requestsForBucketRevisionChange r2 (.bucket bucket) = .ok []) ∧
        (∀ (r2 : KustomizationReconciler) (list2 : KustomizationList),
          list2.Items.Perm list.Items →
          r2.List BucketIndexKey (ObjectKey (.bucket bucket)).string = .ok list2 →
          requestsForBucketRevisionChange r2 (.bucket bucket) = .ok reqs)) := by
  constructor
  · intro repo ha hl
    refine ⟨_, requestsForGitRepositoryRevisionChange_eq r repo artifact list ha hl, ?_, ?_⟩
    · intro r2 list2 hp hl2
      rw [requestsForGitRepositoryRevisionChange_eq r2 repo artifact list2 ha hl2,
        requestsOf_perm hp, requestsOf_markAttempted]
    · intro r2 list2 hp hl2
      rw [requestsForGitRepositoryRevisionChange_eq r2 repo artifact list2 ha hl2,
        requestsOf_perm hp]
  · intro bucket ha hl
    refine ⟨_, requestsForBucketRevisionChange_eq r bucket artifact list ha hl, ?_, ?_⟩
    · intro r2 list2 hp hl2
      rw [requestsForBucketRevisionChange_eq r2 bucket artifact list2 ha hl2,
        requestsOf_perm hp, requestsOf_markAttempted]
    · intro r2 list2 hp hl2
      rw [requestsForBucketRevisionChange_eq r2 bucket artifact list2 ha hl2,
        requestsOf_perm hp]

/-- Witness of C11: the first call over `app2, app1` (both behind) requests
`app1, app2`. A second call over the same two consumers, answered in the other
order, requests `app1, app2` again; a second call after both are marked as
attempted at `rev-A` requests nothing. -/
theorem repeated_delivery_is_safe_witness :
    requestsForGitRepositoryRevisionChange (cacheOf [app2, app1]) (.gitRepository repo1) =
      .ok [requestFor app1, requestFor app2] ∧
    requestsForGitRepositoryRevisionChange (cacheOf [app1, app2]) (.gitRepository repo1) =
      .ok [requestFor app1, requestFor app2] ∧
    requestsForGitRepositoryRevisionChange
      (cacheOf (markAttempted "rev-A" [requestFor app1, requestFor app2] [app2, app1]))
      (.gitRepository repo1) = .ok [] ∧
    requestsForBucketRevisionChange (cacheOf [app1, app2]) (.bucket bucket1) =
      .ok [requestFor app1, requestFor app2] ∧
    requestsForBucketRevisionChange
      (cacheOf (markAttempted "rev-A" [requestFor app1, requestFor app2] [app2, app1]))
      (.bucket bucket1) = .ok [] := by
  have h := repeated_delivery_is_safe (cacheOf [app2, app1]) ⟨"rev-A"⟩ ⟨[app2, app1]⟩
  obtain ⟨reqs, hfirst, hmarked, hsame⟩ := h.1 repo1 rfl rfl
  obtain ⟨breqs, hbfirst, hbmarked, hbsame⟩ := h.2 bucket1 rfl rfl
  have hreqs : reqs = [requestFor app1, requestFor app2] := by
    have e : requestsForGitRepositoryRevisionChange (cacheOf [app2, app1])
        (.gitRepository repo1) = .ok [requestFor app1, requestFor app2] := rfl
    rw [e] at hfirst
    cases hfirst
    rfl
  have hbreqs : breqs = [requestFor app1, requestFor app2] := by
    have e : requestsForBucketRevisionChange (cacheOf [app2, app1])
        (.bucket bucket1) = .ok [requestFor app1, requestFor app2] := rfl
    rw [e] at hbfirst
    cases hbfirst
    rfl
  subst hreqs
  subst hbreqs
  exact ⟨hfirst,
    hsame (cacheOf [app1, app2]) ⟨[app1, app2]⟩ (List.Perm.swap app2 app1 []) rfl,
    hmarked _ ⟨markAttempted "rev-A" [requestFor app1, requestFor app2] [app2, app1]⟩
      (List.Perm.refl _) rfl,
    hbsame (cacheOf [app1, app2]) ⟨[app1, app2]⟩ (List.Perm.swap app2 app1 []) rfl,
    hbmarked _ ⟨markAttempted "rev-A" [requestFor app1, requestFor app2] [app2, app1]⟩
      (List.Perm.refl _) rfl⟩

/-- C14: filtering comes before sequencing. For a source with an artifact, two
listings whose consumers with `Status.LastAttemptedRevision` other than the
revision of the artifact are the same, so that the listings differ only in
consumers at the revision (their dependency declarations included), give the
same result. -/
theorem current_consumers_do_not_influence (r r2 : KustomizationReconciler)
    (artifact : Artifact) (list list2 : KustomizationList)
    (hsame : (list.Items.filter fun k => k.Status.LastAttemptedRevision ≠ artifact.Revision) =
      list2.Items.filter fun k => k.Status.LastAttemptedRevision ≠ artifact.Revision) :
    (∀ repo : GitRepository, repo.GetArtifact = some artifact →
      r.List GitRepositoryIndexKey (ObjectKey (.gitRepository repo)).string = .ok list →
      r2.List GitRepositoryIndexKey (ObjectKey (.gitRepository repo)).string = .ok list2 →
      requestsForGitRepositoryRevisionChange r (.gitRepository repo) =
        requestsForGitRepositoryRevisionChange r2 (.gitRepository repo)) ∧
    (∀ bucket : Bucket, bucket.GetArtifact = some artifact →
      r.List BucketIndexKey (ObjectKey (.bucket bucket)).string = .ok list →
      r2.List BucketIndexKey (ObjectKey (.bucket bucket)).string = .ok list2 →
      requestsForBucketRevisionChange r (.bucket bucket) =
        requestsForBucketRevisionChange r2 (.bucket bucket)) := by
  rw [← pending_eq_filter, ← pending_eq_filter] at hsame
  constructor
  · intro repo ha hl hl2
    rw [requestsForGitRepositoryRevisionChange_eq r repo artifact list ha hl,
      requestsForGitRepositoryRevisionChange_eq r2 repo artifact list2 ha hl2]
    simp only [requestsOf, hsame]
  · intro bucket ha hl hl2
    rw [requestsForBucketRevisionChange_eq r bucket artifact list ha hl,
      requestsForBucketRevisionChange_eq r2 bucket artifact list2 ha hl2]
    simp only [requestsOf, hsame]

/-- Witness of C14: the source `ns/repo1` at `rev-A`, `app1` at `rev-0`, `app2`
at `rev-A` depending on `app1`: the result is exactly `[app1]`, the result of
the listing without `app2`. -/
theorem current_consumers_do_not_influence_witness :
    (requestsForGitRepositoryRevisionChange (cacheOf [app1, app2Current])
        (.gitRepository repo1) =
      requestsForGitRepositoryRevisionChange (cacheOf [app1]) (.gitRepository repo1) ∧
    requestsForBucketRevisionChange (cacheOf [app1, app2Current]) (.bucket bucket1) =
      requestsForBucketRevisionChange (cacheOf [app1]) (.bucket bucket1)) ∧
    requestsForGitRepositoryRevisionChange (cacheOf [app1, app2Current])
      (.gitRepository repo1) = .ok [requestFor app1] ∧
    requestsForBucketRevisionChange (cacheOf [app1, app2Current]) (.bucket bucket1) =
      .ok [requestFor app1] :=
  have h := current_consumers_do_not_influence (cacheOf [app1, app2Current]) (cacheOf [app1])
    ⟨"rev-A"⟩ ⟨[app1, app2Current]⟩ ⟨[app1]⟩ (by decide)
  ⟨⟨h.1 repo1 rfl rfl rfl, h.2 bucket1 rfl rfl rfl⟩, rfl, rfl⟩

/-- C15: the conversion to reconcile requests keeps length and order. When the
sequencer succeeds with the list `sorted`, each handler returns a sequence of
the length of `sorted` whose request at every index `i` has the namespace and
the name of `sorted[i]`. -/
theorem conversion_keeps_length_and_order (r : KustomizationReconciler) (artifact : Artifact)
    (list : KustomizationList) (sorted : List dependency.CrossNamespaceDependencyReference)
    (hsorted : dependency.sort ((list.Items.filter fun d =>
      !(artifact.Revision == d.Status.LastAttemptedRevision)).map Kustomization.GetDependsOn) =
        .ok sorted) :
    (∀ repo : GitRepository, repo.GetArtifact = some artifact →
      r.List GitRepositoryIndexKey (ObjectKey (.gitRepository repo)).string = .ok list →
      ∃ reqs, requestsForGitRepositoryRevisionChange r (.gitRepository repo) = .ok reqs ∧
        reqs.length = sorted.length ∧
        ∀ (i : Nat) (s : dependency.CrossNamespaceDependencyReference), sorted[i]? = some s →
          ∃ q, reqs[i]? = some q ∧ q.NamespacedName.Namespace = s.Namespace ∧
            q.NamespacedName.Name = s.Name) ∧
    (∀ bucket : Bucket, bucket.GetArtifact = some artifact →
      r.List BucketIndexKey (ObjectKey (.bucket bucket)).string = .ok list →
      ∃ reqs, requestsForBucketRevisionChange r (.bucket bucket) = .ok reqs ∧
        reqs.length = sorted.length ∧
        ∀ (i : Nat) (s : dependency.CrossNamespaceDependencyReference), sorted[i]? = some s →
          ∃ q, reqs[i]? = some q ∧ q.NamespacedName.Namespace = s.Namespace ∧
            q.NamespacedName.Name = s.Name) := by
  constructor
  · intro repo ha hl
    refine ⟨sorted.map fun s => ⟨⟨s.Namespace, s.Name⟩⟩, ?_, List.length_map _ _, ?_⟩
    · simp only [requestsForGitRepositoryRevisionChange, ha, hl, hsorted]
    · intro i s hs
      exact ⟨⟨⟨s.Namespace, s.Name⟩⟩, by rw [List.getElem?_map, hs]; rfl, rfl, rfl⟩
  · intro bucket ha hl
    refine ⟨sorted.map fun s => ⟨⟨s.Namespace, s.Name⟩⟩, ?_, List.length_map _ _, ?_⟩
    · simp only [requestsForBucketRevisionChange, ha, hl, hsorted]
    · intro i s hs
      exact ⟨⟨⟨s.Namespace, s.Name⟩⟩, by rw [List.getElem?_map, hs]; rfl, rfl, rfl⟩

/-- Witness of C15: over `app2, app1`, both behind, the sequencer returns
`ns/app1, ns/app2`, and each handler returns two requests with these
namespaces and names at the same indices. -/
theorem conversion_keeps_length_and_order_witness :
    (∃ reqs, requestsForGitRepositoryRevisionChange (cacheOf [app2, app1])
        (.gitRepository repo1) = .ok reqs ∧
      reqs.length = [(⟨"ns", "app1"⟩ : dependency.CrossNamespaceDependencyReference),
        ⟨"ns", "app2"⟩].length ∧
      ∀ (i : Nat) (s : dependency.CrossNamespaceDependencyReference),
        [(⟨"ns", "app1"⟩ : dependency.CrossNamespaceDependencyReference),
          ⟨"ns", "app2"⟩][i]? = some s →
        ∃ q, reqs[i]? = some q ∧ q.NamespacedName.Namespace = s.Namespace ∧
          q.NamespacedName.Name = s.Name) ∧
    (∃ reqs, requestsForBucketRevisionChange (cacheOf [app2, app1])
        (.bucket bucket1) = .ok reqs ∧
      reqs.length = [(⟨"ns", "app1"⟩ : dependency.CrossNamespaceDependencyReference),
        ⟨"ns", "app2"⟩].length ∧
      ∀ (i : Nat) (s : dependency.CrossNamespaceDependencyReference),
        [(⟨"ns", "app1"⟩ : dependency.CrossNamespaceDependencyReference),
          ⟨"ns", "app2"⟩][i]? = some s →
        ∃ q, reqs[i]? = some q ∧ q.NamespacedName.Namespace = s.Namespace ∧
          q.NamespacedName.Name = s.Name) :=
  have h := conversion_keeps_length_and_order (cacheOf [app2, app1]) ⟨"rev-A"⟩
    ⟨[app2, app1]⟩ [⟨"ns", "app1"⟩, ⟨"ns", "app2"⟩] rfl
  ⟨h.1 repo1 rfl rfl, h.2 bucket1 rfl rfl⟩

/-- C16: index key and query key agree. For a source S of kind K and a consumer
whose `Spec.SourceRef` has kind K, the name of S and, as effective namespace
(explicit, or the namespace of the consumer when unset), the namespace of S,
the index function of kind K returns one key, and that key is the string by
which the handler of kind K queries the index of kind K for S,
`ObjectKey(S).String()`, that is namespace, `/`, name: the result of the
handler for S is made of what the cache answers for that index at that key
(the filtered, ordered requests of the listing, or nothing on a failure), and
depends on the cache through that entry only. -/
theorem index_key_is_query_key (r : KustomizationReconciler) (k : Kustomization) :
    (∀ repo : GitRepository, k.Spec.SourceRef.Kind = GitRepositoryKind →
      k.Spec.SourceRef.Name = repo.Name → effectiveNamespace k = repo.Namespace →
      ∃ key, indexByGitRepository r (.kustomization k) = .ok [key] ∧
        key = (ObjectKey (.gitRepository repo)).string ∧
        key = repo.Namespace ++ "/" ++ repo.Name ∧
        ∀ artifact, repo.GetArtifact = some artifact →
          (∀ list, r.List GitRepositoryIndexKey key = .ok list →
            requestsForGitRepositoryRevisionChange r (.gitRepository repo) =
              .ok (requestsOf artifact.Revision list.Items)) ∧
          (∀ e, r.List GitRepositoryIndexKey key = .error e →
            requestsForGitRepositoryRevisionChange r (.gitRepository repo) = .ok []) ∧
          (∀ r2 : KustomizationReconciler,
            r2.List GitRepositoryIndexKey key = r.List GitRepositoryIndexKey key →
            requestsForGitRepositoryRevisionChange r2 (.gitRepository repo) =
              requestsForGitRepositoryRevisionChange r (.gitRepository repo))) ∧
    (∀ bucket : Bucket, k.Spec.SourceRef.Kind = BucketKind →
      k.Spec.SourceRef.Name = bucket.Name → effectiveNamespace k = bucket.Namespace →
      ∃ key, indexByBucket r (.kustomization k) = .ok [key] ∧
        key = (ObjectKey (.bucket bucket)).string ∧
        key = bucket.Namespace ++ "/" ++ bucket.Name ∧
        ∀ artifact, bucket.GetArtifact = some artifact →
          (∀ list, r.List BucketIndexKey key = .ok list →
            requestsForBucketRevisionChange r (.bucket bucket) =
              .ok (requestsOf artifact.Revision list.Items)) ∧
          (∀ e, r.List BucketIndexKey key = .error e →
            requestsForBucketRevisionChange r (.bucket bucket) = .ok []) ∧
          (∀ r2 : KustomizationReconciler,
            r2.List BucketIndexKey key = r.List BucketIndexKey key →
            requestsForBucketRevisionChange r2 (.bucket bucket) =
              requestsForBucketRevisionChange r (.bucket bucket))) := by
  constructor
  · intro repo hk hn hns
    refine ⟨effectiveNamespace k ++ "/" ++ k.Spec.SourceRef.Name,
      indexByGitRepository_effective r k hk, by rw [hn, hns]; rfl, by rw [hn, hns], ?_⟩
    intro artifact ha
    have hkey : effectiveNamespace k ++ "/" ++ k.Spec.SourceRef.Name =
        (ObjectKey (.gitRepository repo)).string := by rw [hn, hns]; rfl
    rw [hkey]
    refine ⟨?_, ?_, ?_⟩
    · intro list hl
      exact requestsForGitRepositoryRevisionChange_eq r repo artifact list ha hl
    · intro e hl
      simp only [requestsForGitRepositoryRevisionChange, ha, hl]
    · intro r2 h2
      simp only [requestsForGitRepositoryRevisionChange, ha, h2]
  · intro bucket hk hn hns
    refine ⟨effectiveNamespace k ++ "/" ++ k.Spec.SourceRef.Name,
      indexByBucket_effective r k hk, by rw [hn, hns]; rfl, by rw [hn, hns], ?_⟩
    intro artifact ha
    have hkey : effectiveNamespace k ++ "/" ++ k.Spec.SourceRef.Name =
        (ObjectKey (.bucket bucket)).string := by rw [hn, hns]; rfl
    rw [hkey]
    refine ⟨?_, ?_, ?_⟩
    · intro list hl
      exact requestsForBucketRevisionChange_eq r bucket artifact list ha hl
    · intro e hl
      simp only [requestsForBucketRevisionChange, ha, hl]
    · intro r2 h2
      simp only [requestsForBucketRevisionChange, ha, h2]

/-- Witness of C16: a cache that answers only for the repository index at
`ns/repo1`, the key of `app1`, with `app2, app1`: the repository handler for
`ns/repo1` requests `app1, app2`. A cache that answers only for the bucket
index at `infra/bucket1`, the key of `bucketConsumer`: the bucket handler for
`infra/bucket1` requests `bucketConsumer`. The same entries under the name of
the other index are not read: the handlers request nothing. -/
theorem index_key_is_query_key_witness :
    (indexByGitRepository (cacheAt GitRepositoryIndexKey "ns/repo1" [app2, app1])
        (.kustomization app1) = .ok ["ns/repo1"] ∧
      requestsForGitRepositoryRevisionChange
        (cacheAt GitRepositoryIndexKey "ns/repo1" [app2, app1]) (.gitRepository repo1) =
          .ok [requestFor app1, requestFor app2] ∧
      requestsForGitRepositoryRevisionChange
        (cacheAt BucketIndexKey "ns/repo1" [app2, app1]) (.gitRepository repo1) = .ok []) ∧
    (indexByBucket (cacheAt BucketIndexKey "infra/bucket1" [bucketConsumer])
        (.kustomization bucketConsumer) = .ok ["infra/bucket1"] ∧
      requestsForBucketRevisionChange
        (cacheAt BucketIndexKey "infra/bucket1" [bucketConsumer]) (.bucket infraBucket1) =
          .ok [requestFor bucketConsumer] ∧
      requestsForBucketRevisionChange
        (cacheAt GitRepositoryIndexKey "infra/bucket1" [bucketConsumer])
        (.bucket infraBucket1) = .ok []) := by
  obtain ⟨key, hidx, -, hkey, hread⟩ :=
    (index_key_is_query_key (cacheAt GitRepositoryIndexKey "ns/repo1" [app2, app1]) app1).1
      repo1 rfl rfl rfl
  obtain ⟨bkey, hbidx, -, hbkey, hbread⟩ :=
    (index_key_is_query_key (cacheAt BucketIndexKey "infra/bucket1" [bucketConsumer])
      bucketConsumer).2 infraBucket1 rfl rfl rfl
  have hk : key = "ns/repo1" := by rw [hkey]; decide
  have hbk : bkey = "infra/bucket1" := by rw [hbkey]; decide
  subst hk
  subst hbk
  exact ⟨⟨hidx, (hread ⟨"rev-A"⟩ rfl).1 ⟨[app2, app1]⟩ rfl, rfl⟩,
    ⟨hbidx, (hbread ⟨"rev-A"⟩ rfl).1 ⟨[bucketConsumer]⟩ rfl, rfl⟩⟩

/-- C17: the index key is injective on well-formed identities. For two consumers
of the kind of the index whose effective source namespaces contain no `/`
(nothing is asked of the names), equal index keys imply equal pairs of
effective namespace and `Spec.SourceRef.Name`. Without the condition distinct
pairs collide: the pairs (`a/b`, `c`) and (`a`, `b/c`) both have the key
`a/b/c`. -/
theorem index_key_injective (r : KustomizationReconciler) (k1 k2 : Kustomization)
    (h1 : '/' ∉ (effectiveNamespace k1).toList) (h2 : '/' ∉ (effectiveNamespace k2).toList) :
    (k1.Spec.SourceRef.Kind = GitRepositoryKind → k2.Spec.SourceRef.Kind = GitRepositoryKind →
      indexByGitRepository r (.kustomization k1) = indexByGitRepository r (.kustomization k2) →
      effectiveNamespace k1 = effectiveNamespace k2 ∧
        k1.Spec.SourceRef.Name = k2.Spec.SourceRef.Name) ∧
    (k1.Spec.SourceRef.Kind = BucketKind → k2.Spec.SourceRef.Kind = BucketKind →
      indexByBucket r (.kustomization k1) = indexByBucket r (.kustomization k2) →
      effectiveNamespace k1 = effectiveNamespace k2 ∧
        k1.Spec.SourceRef.Name = k2.Spec.SourceRef.Name) ∧
    (indexByGitRepository r (.kustomization consumerOfSlashNamespace) = .ok ["a/b/c"] ∧
      indexByGitRepository r (.kustomization consumerOfSlashName) = .ok ["a/b/c"] ∧
      indexByBucket r (.kustomization (withKind consumerOfSlashNamespace BucketKind)) =
        .ok ["a/b/c"] ∧
      indexByBucket r (.kustomization (withKind consumerOfSlashName BucketKind)) =
        .ok ["a/b/c"] ∧
      effectiveNamespace consumerOfSlashNamespace ≠ effectiveNamespace consumerOfSlashName ∧
      consumerOfSlashNamespace.Spec.SourceRef.Name ≠
        consumerOfSlashName.Spec.SourceRef.Name) := by
  refine ⟨?_, ?_, rfl, rfl, rfl, rfl, by decide, by decide⟩
  · intro hk1 hk2 h
    rw [indexByGitRepository_effective r k1 hk1, indexByGitRepository_effective r k2 hk2] at h
    simp only [Except.ok.injEq, List.cons.injEq, and_true] at h
    exact key_injective h1 h2 h
  · intro hk1 hk2 h
    rw [indexByBucket_effective r k1 hk1, indexByBucket_effective r k2 hk2] at h
    simp only [Except.ok.injEq, List.cons.injEq, and_true] at h
    exact key_injective h1 h2 h

/-- Witness of C17: `app1` and the same consumer under another name have
slash-free effective namespaces and the same key, and the same pair. -/
theorem index_key_injective_witness :
    effectiveNamespace app1 = effectiveNamespace (consumer "app9" [] "rev-7") ∧
      app1.Spec.SourceRef.Name = (consumer "app9" [] "rev-7").Spec.SourceRef.Name :=
  (index_key_injective (cacheOf []) app1 (consumer "app9" [] "rev-7")
    (by decide) (by decide)).1 rfl rfl rfl

/-- C18: the two handlers are one function up to the kind of the source. A
repository and a bucket with the same artifact state (absent, or present with
a revision) whose queries have the same outcome (failure, or a list of
consumers) get the same result from their handlers; and the two index
functions return the same keys on consumers that differ only in
`Spec.SourceRef.Kind`, `GitRepository` for the one and `Bucket` for the
other. -/
theorem handlers_agree_up_to_kind (r r2 : KustomizationReconciler) (repo : GitRepository)
    (bucket : Bucket) (k : Kustomization) :
    (repo.GetArtifact = bucket.GetArtifact →
      r.List GitRepositoryIndexKey (ObjectKey (.gitRepository repo)).string =
        r2.List BucketIndexKey (ObjectKey (.bucket bucket)).string →
      requestsForGitRepositoryRevisionChange r (.gitRepository repo) =
        requestsForBucketRevisionChange r2 (.bucket bucket)) ∧
    indexByGitRepository r (.kustomization (withKind k GitRepositoryKind)) =
      indexByBucket r2 (.kustomization (withKind k BucketKind)) := by
  constructor
  · intro ha hl
    simp only [requestsForGitRepositoryRevisionChange, requestsForBucketRevisionChange, ha, hl]
  · simp only [indexByGitRepository, indexByBucket, withKind, if_true, Kustomization.GetNamespace]

/-- Witness of C18: the repository and the bucket at `rev-A` over the same
listing, over a failing cache, and without an artifact; and the keys of `app1`
as a consumer of a repository and as a consumer of a bucket. -/
theorem handlers_agree_up_to_kind_witness :
    requestsForGitRepositoryRevisionChange (cacheOf [app2, app1]) (.gitRepository repo1) =
      requestsForBucketRevisionChange (cacheOf [app2, app1]) (.bucket bucket1) ∧
    requestsForGitRepositoryRevisionChange brokenCache (.gitRepository repo1) =
      requestsForBucketRevisionChange brokenCache (.bucket bucket1) ∧
    requestsForGitRepositoryRevisionChange (cacheOf [app2, app1])
        (.gitRepository repoWithoutArtifact) =
      requestsForBucketRevisionChange (cacheOf [app2, app1]) (.bucket bucketWithoutArtifact) ∧
    indexByGitRepository (cacheOf []) (.kustomization (withKind app1 GitRepositoryKind)) =
      indexByBucket (cacheOf []) (.kustomization (withKind app1 BucketKind)) :=
  ⟨(handlers_agree_up_to_kind (cacheOf [app2, app1]) (cacheOf [app2, app1]) repo1 bucket1
      app1).1 rfl rfl,
    (handlers_agree_up_to_kind brokenCache brokenCache repo1 bucket1 app1).1 rfl rfl,
    (handlers_agree_up_to_kind (cacheOf [app2, app1]) (cacheOf [app2, app1])
      repoWithoutArtifact bucketWithoutArtifact app1).1 rfl rfl,
    (handlers_agree_up_to_kind (cacheOf []) (cacheOf []) repo1 bucket1 app1).2⟩

/-- C12: the order of the returned requests is determined by the set of listed
consumers. For a source with an artifact and two successful listings that hold
the same consumers in different orders (one a rearrangement of the other),
each handler returns the same sequence for both. -/
theorem result_independent_of_listing_order (r r2 : KustomizationReconciler)
    (artifact : Artifact) (list list2 : KustomizationList)
    (hperm : list.Items.Perm list2.Items) :
    (∀ repo : GitRepository, repo.GetArtifact = some artifact →
      r.List GitRepositoryIndexKey (ObjectKey (.gitRepository repo)).string = .ok list →
      r2.List GitRepositoryIndexKey (ObjectKey (.gitRepository repo)).string = .ok list2 →
      requestsForGitRepositoryRevisionChange r (.gitRepository repo) =
        requestsForGitRepositoryRevisionChange r2 (.gitRepository repo)) ∧
    (∀ bucket : Bucket, bucket.GetArtifact = some artifact →
      r.List BucketIndexKey (ObjectKey (.bucket bucket)).string = .ok list →
      r2.List BucketIndexKey (ObjectKey (.bucket bucket)).string = .ok list2 →
      requestsForBucketRevisionChange r (.bucket bucket) =
        requestsForBucketRevisionChange r2 (.bucket bucket)) := by
  constructor
  · intro repo ha hl hl2
    rw [requestsForGitRepositoryRevisionChange_eq r repo artifact list ha hl,
      requestsForGitRepositoryRevisionChange_eq r2 repo artifact list2 ha hl2,
      requestsOf_perm hperm]
  · intro bucket ha hl hl2
    rw [requestsForBucketRevisionChange_eq r bucket artifact list ha hl,
      requestsForBucketRevisionChange_eq r2 bucket artifact list2 ha hl2,
      requestsOf_perm hperm]

/-- Witness of C12: the independent consumers `app1` and `app7`, both behind,
listed as `app7, app1` and as `app1, app7`: each handler returns `app1, app7`
for both listings. -/
theorem result_independent_of_listing_order_witness :
    (requestsForGitRepositoryRevisionChange (cacheOf [consumer "app7" [] "rev-0", app1])
        (.gitRepository repo1) =
      requestsForGitRepositoryRevisionChange (cacheOf [app1, consumer "app7" [] "rev-0"])
        (.gitRepository repo1) ∧
    requestsForBucketRevisionChange (cacheOf [consumer "app7" [] "rev-0", app1])
        (.bucket bucket1) =
      requestsForBucketRevisionChange (cacheOf [app1, consumer "app7" [] "rev-0"])
        (.bucket bucket1)) ∧
    requestsForGitRepositoryRevisionChange (cacheOf [consumer "app7" [] "rev-0", app1])
      (.gitRepository repo1) = .ok [requestFor app1, requestFor (consumer "app7" [] "rev-0")] :=
  have h := result_independent_of_listing_order
    (cacheOf [consumer "app7" [] "rev-0", app1]) (cacheOf [app1, consumer "app7" [] "rev-0"])
    ⟨"rev-A"⟩ ⟨[consumer "app7" [] "rev-0", app1]⟩ ⟨[app1, consumer "app7" [] "rev-0"]⟩
    (List.Perm.swap app1 (consumer "app7" [] "rev-0") [])
  ⟨⟨h.1 repo1 rfl rfl rfl, h.2 bucket1 rfl rfl rfl⟩, rfl⟩

end controllers
